import Mathlib

/-!
# Verification of the block cache and read/write path of `sdcard_lfs.py`

This file is a shallow embedding of the cache subsystem and block-device
facade of the MicroPython SD-card driver `sdcard_lfs.py` (classes `LRMDict`,
`Block`, `Cache`, `SDCard`), together with theorems settling the frozen
claims about it.

Modelling conventions:

* A byte buffer is a total function `Nat → Nat`; only indices `< 512` are
  ever observed (the driver's block size is fixed at 512 and the facade
  always hands the cache full 512-byte views).  Copying a 512-byte buffer
  is modelled by passing the function itself.
* `Block.content` in Python is a `memoryview` into one of the preallocated
  slot buffers `Cache._cache[slot]`.  We model the pool explicitly
  (`SDState.pool : Nat → Bytes`) and store the slot index in the block, so
  that aliasing between blocks that share a slot is captured faithfully.
* The `LRMDict` ordered mapping is a `List Block`, head = least recently
  used, tail = most recently used.  `LRMDict.__setitem__` (which always
  moves the key to the end, replacing any previous binding) is `setItem`.
* Python exceptions are modelled by an `Option Err` result paired with the
  state at the moment of the raise (mutations made before the raise
  persist, as in Python).  `OSError(5)` is `Err.ioError`, the
  `"Can't erase a dirty block"` error is `Err.eraseDirty`, `ValueError`
  on configuration is `Err.badConfig`, and a would-be `IndexError` on an
  empty eviction list is `Err.indexError`.
* The SPI card is modelled as `Device`: per-block 512-byte data, plus two
  predicates saying whether the R1 response of a read command (CMD17/18)
  or write command (CMD24/25) addressed at a given block is non-zero
  (which the driver turns into `OSError(5)`).  Card traffic is recorded in
  an event trace: `CMD17`, `CMD18 (+CMD12)`, `CMD24`, `CMD25 (+STOP_TRAN)`.
* The two `while` loops of `readblocks` / `writeblocks` advance
  `bytes_read` / `bytes_written` by exactly 512 per iteration, so they are
  translated as structural recursion on the precomputed iteration count
  `(len_buf - start) / 512`.
-/

namespace SDC

/-- A byte buffer: index → byte value.  Only indices `< 512` are observed. -/
def Bytes : Type := Nat → Nat

instance : Inhabited Bytes := ⟨fun _ => 0⟩

/-- The `Block` record of `sdcard_lfs.py` (`block_num`, `dirty`, `content`);
`content` is a memoryview into slot `slot` of the preallocated pool. -/
structure Block where
  block_num : Nat
  dirty : Bool
  slot : Nat
deriving DecidableEq

/-- Eviction policy (the source normalizes the string and knows `LRU`/`LRUC`). -/
inductive Policy
  | LRU
  | LRUC
deriving DecidableEq

/-- Errors raised by the driver: `OSError(5)` (EIO), the erase-dirty
`OSError`, configuration `ValueError`, and a would-be `IndexError`. -/
inductive Err
  | ioError
  | eraseDirty
  | badConfig
  | indexError
deriving DecidableEq

/-- Card-traffic events: CMD17 single read, CMD18 multi read (ended by
CMD12), CMD24 single write, CMD25 multi write (ended by STOP_TRAN).
Multi events record the start block and the number of blocks. -/
inductive Ev
  | readSingle (b : Nat)
  | readMulti (b n : Nat)
  | writeSingle (b : Nat)
  | writeMulti (b n : Nat)
deriving DecidableEq

/-- Is the event a write command (CMD24/CMD25)? -/
def Ev.isWrite : Ev → Bool
  | .writeSingle _ => true
  | .writeMulti _ _ => true
  | _ => false

/-- Is the event a read command (CMD17/CMD18)? -/
def Ev.isRead : Ev → Bool
  | .readSingle _ => true
  | .readMulti _ _ => true
  | _ => false

/-- The SD card as seen through the SPI codec: per-block data, and whether
the card answers a read/write command at a given block with a non-zero R1
(which the driver surfaces as `OSError(5)`). -/
structure Device where
  data : Nat → Bytes
  failRead : Nat → Bool
  failWrite : Nat → Bool

/-- Full driver state: the card, the geometry, the cache index (`LRMDict`,
head = least recent), the slot pool, the configuration, and the trace of
card commands issued so far. -/
structure SDState where
  dev : Device
  sectors : Nat
  blocks : List Block
  pool : Nat → Bytes
  cache_max_size : Nat
  read_ahead : Nat
  policy : Policy
  events : List Ev

/-- Pointwise function update. -/
def upd {α : Type} (f : Nat → α) (i : Nat) (v : α) : Nat → α :=
  fun j => if j = i then v else f j

/-- The suffix of a buffer starting at `start` (a memoryview slice `buf[start:]`). -/
def window (buf : Bytes) (start : Nat) : Bytes :=
  fun i => buf (start + i)

/-- Slice assignment `dst[start : start+n] = src[0:n]`. -/
def writeRange (dst : Bytes) (start : Nat) (src : Bytes) (n : Nat) : Bytes :=
  fun j => if start ≤ j ∧ j < start + n then src (j - start) else dst j

/-- The 512-byte buffer `b"\xff" * 512`. -/
def allFF : Bytes := fun _ => 0xFF

/-- Dictionary lookup `blocks[k]` / `blocks.get(k)`. -/
def lookup (bs : List Block) (k : Nat) : Option Block :=
  bs.find? (fun b => b.block_num == k)

/-- `k in blocks`. -/
def resident (bs : List Block) (k : Nat) : Bool :=
  (lookup bs k).isSome

/-- `blocks.pop(k)`: remove the binding of key `k`. -/
def eraseKey (bs : List Block) (k : Nat) : List Block :=
  bs.filter (fun b => b.block_num != k)

/-- `LRMDict.__setitem__`: bind `b.block_num` to `b`, moving it to the end
(most recent) and dropping any previous binding of that key. -/
def setItem (bs : List Block) (b : Block) : List Block :=
  eraseKey bs b.block_num ++ [b]

/-- `LRMDict.move_to_end(k)`. -/
def moveToEnd (bs : List Block) (k : Nat) : List Block :=
  match lookup bs k with
  | some b => eraseKey bs k ++ [b]
  | none => bs

/-- In-place mutation of the block bound to `k` (no recency change). -/
def updateBlock (bs : List Block) (k : Nat) (f : Block → Block) : List Block :=
  bs.map (fun b => if b.block_num == k then f b else b)

/-- `Cache.write_to_device(blocks)`: CMD24 for one block, CMD25 + one data
token per block + STOP_TRAN for several.  A non-zero R1 on the command
raises `OSError(5)`.  Multi-block writes stream to consecutive card
addresses starting at the first block's number.  Data is taken from the
pool slot of each block. -/
def Cache.write_to_device (s : SDState) (bl : List Block) : Option Err × SDState :=
  match bl with
  | [] => (none, s)
  | [b] =>
    if s.dev.failWrite b.block_num then (some .ioError, s)
    else (none, { s with
      dev := { s.dev with data := upd s.dev.data b.block_num (s.pool b.slot) },
      events := s.events ++ [.writeSingle b.block_num] })
  | b0 :: b1 :: rest =>
    if s.dev.failWrite b0.block_num then (some .ioError, s)
    else
      let bl := b0 :: b1 :: rest
      let data' := bl.enum.foldl
        (fun d p => upd d (b0.block_num + p.1) (s.pool p.2.slot)) s.dev.data
      (none, { s with
        dev := { s.dev with data := data' },
        events := s.events ++ [.writeMulti b0.block_num bl.length] })

/-- `Cache.read_from_device(blocks)`: CMD17 for one block, CMD18 + CMD12
for several.  A non-zero R1 raises `OSError(5)`.  A multi-block read
streams consecutive card blocks starting at the first block's number into
each block's slot in order. -/
def Cache.read_from_device (s : SDState) (bl : List Block) : Option Err × SDState :=
  match bl with
  | [] => (none, s)
  | [b] =>
    if s.dev.failRead b.block_num then (some .ioError, s)
    else (none, { s with
      pool := upd s.pool b.slot (s.dev.data b.block_num),
      events := s.events ++ [.readSingle b.block_num] })
  | b0 :: b1 :: rest =>
    if s.dev.failRead b0.block_num then (some .ioError, s)
    else
      let bl := b0 :: b1 :: rest
      let pool' := bl.enum.foldl
        (fun p q => upd p q.2.slot (s.dev.data (b0.block_num + q.1))) s.pool
      (none, { s with
        pool := pool',
        events := s.events ++ [.readMulti b0.block_num bl.length] })

/-- Ordering of blocks by `block_num` (the `key=lambda x: x.block_num` of
`sorted` in `Cache.sync`). -/
def keyLE (a b : Block) : Prop := a.block_num ≤ b.block_num

instance : DecidableRel keyLE := fun a b => Nat.decLe a.block_num b.block_num

instance : IsTotal Block keyLE := ⟨fun a b => Nat.le_total a.block_num b.block_num⟩

instance : IsTrans Block keyLE := ⟨fun _ _ _ h1 h2 => Nat.le_trans h1 h2⟩

/-- `sorted(dirty_blocks, key=lambda x: x.block_num)` (stable; the keys are
distinct in every reachable state, so any sort agrees with Python's). -/
def sortByKey (l : List Block) : List Block :=
  List.insertionSort keyLE l

/-- The run-grouping loop of `Cache.sync`: partition a list into maximal
runs in which each `block_num` is the predecessor's plus one. -/
def groupRuns : List Block → List (List Block)
  | [] => []
  | [a] => [[a]]
  | a :: b :: rest =>
    if b.block_num = a.block_num + 1 then
      match groupRuns (b :: rest) with
      | g :: gs => (a :: g) :: gs
      | [] => [[a]]
    else
      [a] :: groupRuns (b :: rest)

/-- The card write transaction that `Cache.write_to_device` issues for a
(nonempty) group: CMD24 for one block, CMD25 for several. -/
def evOf : List Block → Ev
  | [b] => .writeSingle b.block_num
  | b :: rest => .writeMulti b.block_num (b :: rest).length
  | [] => .writeSingle 0

/-- The `for group in block_groups: self.write_to_device(group)` loop of
`Cache.sync`. -/
def writeGroups : List (List Block) → SDState → Option Err × SDState
  | [], s => (none, s)
  | g :: gs, s =>
    match Cache.write_to_device s g with
    | (some e, s') => (some e, s')
    | (none, s') => writeGroups gs s'

/-- `Cache.sync()`: collect the dirty blocks, sort them by block number,
clear their dirty flags (the source clears the flags while grouping,
before any device write), group maximal consecutive runs, and write each
group. -/
def Cache.sync (s : SDState) : Option Err × SDState :=
  if s.cache_max_size = 0 then (none, s)
  else
    let dirty_blocks := sortByKey (s.blocks.filter (fun b => b.dirty))
    if dirty_blocks.isEmpty then (none, s)
    else
      let groups := groupRuns dirty_blocks
      let s1 := { s with
        blocks := s.blocks.map (fun b => if b.dirty then { b with dirty := false } else b) }
      writeGroups groups s1

/-- `Cache.block_evictor(nblocks)`: LRU returns the `nblocks` oldest
blocks; LRUC returns the `nblocks` oldest clean blocks, or syncs first
when there are not enough clean blocks and then returns the oldest ones.
Returns the selected blocks together with the (possibly sync-modified)
state. -/
def Cache.block_evictor (s : SDState) (nblocks : Nat) : Option Err × SDState × List Block :=
  match s.policy with
  | .LRU => (none, s, s.blocks.take nblocks)
  | .LRUC =>
    let clean := s.blocks.filter (fun b => !b.dirty)
    if nblocks ≠ 0 ∧ nblocks ≤ clean.length then (none, s, clean.take nblocks)
    else
      match Cache.sync s with
      | (some e, s') => (some e, s', [])
      | (none, s') => (none, s', s'.blocks.take nblocks)

/-- The eviction loop in the cache-full branch of `Cache.get`: flush each
dirty victim with a single-block write, then pop its old key, mark it
clean, rebind it to `block_num + i` and reinsert it at the tail. -/
def evictLoop (block_num : Nat) : Nat → List Block → SDState → Option Err × SDState
  | _, [], s => (none, s)
  | i, b :: rest, s =>
    if b.dirty then
      match Cache.write_to_device s [b] with
      | (some e, s') => (some e, s')
      | (none, s') =>
        evictLoop block_num (i + 1) rest
          { s' with blocks :=
              setItem (eraseKey s'.blocks b.block_num) ⟨block_num + i, false, b.slot⟩ }
    else
      evictLoop block_num (i + 1) rest
        { s with blocks :=
            setItem (eraseKey s.blocks b.block_num) ⟨block_num + i, false, b.slot⟩ }

/-- `Cache.get(block_num, buf)`.  Returns the error, the new state, and the
512-byte buffer contents handed back to the caller (on an error the
caller's buffer is unchanged).  With `cache_max_size == 0` the cache is
bypassed with an ad-hoc block pointing at the caller's buffer.  On a hit
the block is copied out and moved to the tail.  On a miss with a full
cache, read-ahead is reduced to 1 if any block in
`[block_num, block_num+read_ahead)` is resident, victims are evicted and
rebound, and the run is fetched (CMD17 for one block, CMD18 otherwise).
On a miss with a non-full cache, `min(read_ahead, cache_max_size - size)`
fresh blocks are bound to slots `size, size+1, ...` and fetched; note the
source does not check residency of the read-ahead blocks here. -/
def Cache.get (s : SDState) (block_num : Nat) (buf : Bytes) : Option Err × SDState × Bytes :=
  if s.cache_max_size = 0 then
    if s.dev.failRead block_num then (some .ioError, s, buf)
    else (none, { s with events := s.events ++ [.readSingle block_num] },
          s.dev.data block_num)
  else
    match lookup s.blocks block_num with
    | some b =>
      (none, { s with blocks := moveToEnd s.blocks block_num }, s.pool b.slot)
    | none =>
      let ra := s.read_ahead
      let cache_size := s.blocks.length
      if cache_size = s.cache_max_size then
        let ra' := if (List.range' block_num ra).any (fun k => resident s.blocks k) then 1 else ra
        match Cache.block_evictor s ra' with
        | (some e, s1, _) => (some e, s1, buf)
        | (none, s1, evicted) =>
          match evicted with
          | [] => (some .indexError, s1, buf)
          | e0 :: erest =>
            match evictLoop block_num 0 (e0 :: erest) s1 with
            | (some e, s2) => (some e, s2, buf)
            | (none, s2) =>
              let newBlocks := (e0 :: erest).enum.map
                (fun p => ({ block_num := block_num + p.1, dirty := false, slot := p.2.slot } : Block))
              match Cache.read_from_device s2 newBlocks with
              | (some e, s3) => (some e, s3, buf)
              | (none, s3) => (none, s3, s3.pool e0.slot)
      else
        let r := min ra (s.cache_max_size - cache_size)
        if r = 0 then (some .indexError, s, buf)
        else
          let newBlocks := (List.range r).map
            (fun i => ({ block_num := block_num + i, dirty := false, slot := cache_size + i } : Block))
          let s1 := { s with blocks := newBlocks.foldl (fun bs b => setItem bs b) s.blocks }
          match Cache.read_from_device s1 newBlocks with
          | (some e, s2) => (some e, s2, buf)
          | (none, s2) => (none, s2, s2.pool cache_size)

/-- `Cache.put(block_num, buf)`.  With `cache_max_size == 0` the write goes
straight to the card.  On a hit the buffer is copied into the resident
block, which is marked dirty and moved to the tail.  On a miss with a full
cache one victim is evicted (flushed first if dirty) and rebound; on a
miss with a non-full cache a fresh block is bound to slot `size`. -/
def Cache.put (s : SDState) (block_num : Nat) (buf : Bytes) : Option Err × SDState :=
  if s.cache_max_size = 0 then
    if s.dev.failWrite block_num then (some .ioError, s)
    else (none, { s with
      dev := { s.dev with data := upd s.dev.data block_num buf },
      events := s.events ++ [.writeSingle block_num] })
  else
    match lookup s.blocks block_num with
    | some b =>
      let s1 := { s with
        pool := upd s.pool b.slot buf,
        blocks := updateBlock s.blocks block_num (fun x => { x with dirty := true }) }
      (none, { s1 with blocks := moveToEnd s1.blocks block_num })
    | none =>
      let cache_size := s.blocks.length
      if cache_size = s.cache_max_size then
        match Cache.block_evictor s 1 with
        | (some e, s1, _) => (some e, s1)
        | (none, s1, evicted) =>
          match evicted with
          | [] => (some .indexError, s1)
          | b :: _ =>
            if b.dirty then
              match Cache.write_to_device s1 [b] with
              | (some e, s2) => (some e, s2)
              | (none, s2) =>
                (none, { s2 with
                  blocks := setItem (eraseKey s2.blocks b.block_num) ⟨block_num, true, b.slot⟩,
                  pool := upd s2.pool b.slot buf })
            else
              (none, { s1 with
                blocks := setItem (eraseKey s1.blocks b.block_num) ⟨block_num, true, b.slot⟩,
                pool := upd s1.pool b.slot buf })
      else
        (none, { s with
          blocks := setItem s.blocks ⟨block_num, true, cache_size⟩,
          pool := upd s.pool cache_size buf })

/-- `Cache.__init__` validation and initial state: `read_ahead` must be in
`[1, cache_max_size]`, otherwise `ValueError`; the pool is a list of
`cache_max_size` zero-filled bytearrays and the index starts empty. -/
def Cache.mkInit (dev : Device) (sectors cache_max_size : Nat) (policy : Policy)
    (read_ahead : Nat) : Except Err SDState :=
  if read_ahead < 1 ∨ read_ahead > cache_max_size then .error .badConfig
  else .ok { dev := dev, sectors := sectors, blocks := [], pool := fun _ _ => 0,
             cache_max_size := cache_max_size, read_ahead := read_ahead,
             policy := policy, events := [] }

/-- `Cache.reset_cache(size, policy, read_ahead)`: discard the index,
reallocate the pool, install the new configuration.  No validation. -/
def Cache.reset_cache (s : SDState) (cache_max_size : Nat) (policy : Policy)
    (read_ahead : Nat) : SDState :=
  { s with cache_max_size := cache_max_size, policy := policy,
           read_ahead := read_ahead, blocks := [], pool := fun _ _ => 0 }

/-- The full-block `while` loop of `SDCard.readblocks`, as structural
recursion on the number of remaining full blocks
(`(len_buf - bytes_read) / 512`); each iteration reads one whole block
directly into a 512-byte window of the destination and advances
`bytes_read` by 512.  Returns error, state, buffer, and the final
`block_num` and `bytes_read`. -/
def readFullLoop : Nat → SDState → Bytes → Nat → Nat → Option Err × SDState × Bytes × Nat × Nat
  | 0, s, acc, bn, br => (none, s, acc, bn, br)
  | n + 1, s, acc, bn, br =>
    match Cache.get s bn (window acc br) with
    | (some e, s', _) => (some e, s', acc, bn, br)
    | (none, s', out) => readFullLoop n s' (writeRange acc br out 512) (bn + 1) (br + 512)

/-- The trailing-partial-block step shared by both branches of
`SDCard.readblocks`. -/
def readTail (len_buf : Nat) (res : Option Err × SDState × Bytes × Nat × Nat) :
    Option Err × SDState × Bytes :=
  match res with
  | (some e, s, acc, _, _) => (some e, s, acc)
  | (none, s, acc, bn, br) =>
    if br < len_buf then
      match Cache.get s bn (fun _ => 0) with
      | (some e, s', _) => (some e, s', acc)
      | (none, s', t) => (none, s', writeRange acc br t (len_buf - br))
    else (none, s, acc)

/-- `SDCard.readblocks(block_num, buf, offset)` for a buffer of length
`len_buf`, returning the error, the state, and the buffer contents.
The offset is folded into the block number, the number of touched blocks
is `ceil((offset % 512 + len_buf) / 512)`; a single-block request goes
through the scratch buffer, a multi-block request handles a partial head
via scratch, whole blocks directly, and a partial tail via scratch. -/
def SDCard.readblocks (s : SDState) (block_num len_buf : Nat) (buf : Bytes)
    (offset : Nat) : Option Err × SDState × Bytes :=
  let bn := block_num + offset / 512
  let off := offset % 512
  let nblocks := (off + len_buf + 511) / 512
  if nblocks = 1 then
    match Cache.get s bn (fun _ => 0) with
    | (some e, s', _) => (some e, s', buf)
    | (none, s', t) => (none, s', writeRange buf 0 (window t off) len_buf)
  else
    if off > 0 then
      match Cache.get s bn (fun _ => 0) with
      | (some e, s', _) => (some e, s', buf)
      | (none, s', t) =>
        let k := 512 - off
        let acc := writeRange buf 0 (window t off) k
        readTail len_buf (readFullLoop ((len_buf - k) / 512) s' acc (bn + 1) k)
    else
      readTail len_buf (readFullLoop (len_buf / 512) s buf bn 0)

/-- The full-block `while` loop of `SDCard.writeblocks`, as structural
recursion on the remaining full-block count. -/
def writeFullLoop (buf : Bytes) : Nat → SDState → Nat → Nat → Option Err × SDState × Nat × Nat
  | 0, s, bn, bw => (none, s, bn, bw)
  | n + 1, s, bn, bw =>
    match Cache.put s bn (window buf bw) with
    | (some e, s') => (some e, s', bn, bw)
    | (none, s') => writeFullLoop buf n s' (bn + 1) (bw + 512)

/-- The trailing-partial-block read-modify-write step of `SDCard.writeblocks`. -/
def writeTail (len_buf : Nat) (buf : Bytes) (res : Option Err × SDState × Nat × Nat) :
    Option Err × SDState :=
  match res with
  | (some e, s, _, _) => (some e, s)
  | (none, s, bn, bw) =>
    if bw < len_buf then
      match Cache.get s bn (fun _ => 0) with
      | (some e, s', _) => (some e, s')
      | (none, s', t) => Cache.put s' bn (writeRange t 0 (window buf bw) (len_buf - bw))
    else (none, s)

/-- `SDCard.writeblocks(block_num, buf, offset)` for a buffer of length
`len_buf`.  A single aligned whole block is `put` directly; a single
partial block is read, overlaid and `put` back; a multi-block request
handles a partial head by read-modify-write, whole blocks by direct `put`,
and a partial tail by read-modify-write. -/
def SDCard.writeblocks (s : SDState) (block_num len_buf : Nat) (buf : Bytes)
    (offset : Nat) : Option Err × SDState :=
  let bn := block_num + offset / 512
  let off := offset % 512
  let nblocks := (off + len_buf + 511) / 512
  if nblocks = 1 then
    if off = 0 ∧ off + len_buf = 512 then Cache.put s bn buf
    else
      match Cache.get s bn (fun _ => 0) with
      | (some e, s', _) => (some e, s')
      | (none, s', t) => Cache.put s' bn (writeRange t off buf len_buf)
  else
    if off > 0 then
      match Cache.get s bn (fun _ => 0) with
      | (some e, s', _) => (some e, s')
      | (none, s', t) =>
        let k := 512 - off
        match Cache.put s' bn (writeRange t off buf k) with
        | (some e, s2) => (some e, s2)
        | (none, s2) => writeTail len_buf buf (writeFullLoop buf ((len_buf - k) / 512) s2 (bn + 1) k)
    else
      writeTail len_buf buf (writeFullLoop buf (len_buf / 512) s bn 0)

/-- `SDCard.ioctl(op, arg)`: op 3 syncs, op 4 returns `sectors`, op 5
returns 512, op 6 materializes an erase: a resident dirty block raises,
a resident clean block is overwritten with `0xFF` in place and marked
dirty (no recency change), an absent block is `put` as all-`0xFF`.
Returns error, state, and the integer result. -/
def SDCard.ioctl (s : SDState) (op arg : Nat) : Option Err × SDState × Nat :=
  if op = 3 then
    match Cache.sync s with
    | (e, s') => (e, s', 0)
  else if op = 4 then (none, s, s.sectors)
  else if op = 5 then (none, s, 512)
  else if op = 6 then
    match lookup s.blocks arg with
    | some b =>
      if b.dirty then (some .eraseDirty, s, 0)
      else
        (none, { s with
          pool := upd s.pool b.slot allFF,
          blocks := updateBlock s.blocks arg (fun x => { x with dirty := true }) }, 0)
    | none =>
      match Cache.put s arg allFF with
      | (e, s') => (e, s', 0)
  else (none, s, 0)

/-- The byte a caller would observe for block `bn`: the cached content if
resident, the card content otherwise. -/
def view (s : SDState) (bn : Nat) : Bytes :=
  match lookup s.blocks bn with
  | some b => s.pool b.slot
  | none => s.dev.data bn

/-- The configuration and failure model of `t` agree with those of `s`
(cache operations never change them). -/
def cfgEq (s t : SDState) : Prop :=
  t.sectors = s.sectors ∧ t.cache_max_size = s.cache_max_size ∧
  t.read_ahead = s.read_ahead ∧ t.policy = s.policy ∧
  t.dev.failRead = s.dev.failRead ∧ t.dev.failWrite = s.dev.failWrite

/-! ## Concrete states used by the counterexamples and failing-input runs -/

/-- A working card whose every block reads as zeroes. -/
def devZero : Device :=
  { data := fun _ _ => 0, failRead := fun _ => false, failWrite := fun _ => false }

/-- A card that accepts reads but answers every write command with a
non-zero R1 (the driver raises `OSError(5)`). -/
def devWriteFail : Device :=
  { data := fun _ _ => 0, failRead := fun _ => false, failWrite := fun _ => true }

/-- A 512-byte buffer filled with the byte 7. -/
def buf7 : Bytes := fun _ => 7

/-- Freshly initialised driver: 100 sectors, cache of 4 blocks, LRUC
eviction, `read_ahead = 2` (a configuration `Cache.__init__` accepts). -/
def sRA2 : SDState :=
  { dev := devZero, sectors := 100, blocks := [], pool := fun _ _ => 0,
    cache_max_size := 4, read_ahead := 2, policy := .LRUC, events := [] }

/-- C1 failing run, step 1: `writeblocks(10, buf7, 0)` on `sRA2`. -/
def c1Write : Option Err × SDState := SDCard.writeblocks sRA2 10 512 buf7 0

/-- C1 failing run, step 2: `readblocks(9, out, 0)` — a read of a block
outside the written range. -/
def c1ReadOther : Option Err × SDState × Bytes :=
  SDCard.readblocks c1Write.2 9 512 (fun _ => 0) 0

/-- C1 failing run, step 3: `readblocks(10, out, 0)` — reading back the
range written in step 1. -/
def c1ReadBack : Option Err × SDState × Bytes :=
  SDCard.readblocks c1ReadOther.2.1 10 512 (fun _ => 0) 0

/-- C6 failing run, step 1: `put(10, buf7)` on `sRA2` (block 10 becomes
resident in slot 0). -/
def c6Put : SDState := (Cache.put sRA2 10 buf7).2

/-- C6 failing run, step 2: `get(9)` — a miss on a not-full cache with
`read_ahead = 2`; the read-ahead block 10 is already resident. -/
def c6Get1 : SDState := (Cache.get c6Put 9 (fun _ => 0)).2.1

/-- C6 failing run, step 3: `get(20)` — another miss on the not-full cache. -/
def c6Get2 : SDState := (Cache.get c6Get1 20 (fun _ => 0)).2.1

/-- A cache holding a single dirty block 7 (slot 0) in front of a card
that rejects writes, used against C3's sync clause. -/
def sDirtyFailW : SDState :=
  { dev := devWriteFail, sectors := 100, blocks := [⟨7, true, 0⟩], pool := fun _ _ => 0,
    cache_max_size := 2, read_ahead := 1, policy := .LRU, events := [] }

/-- A full two-block cache of clean blocks 5 and 6, `read_ahead = 1`,
used against C7's no-collision clause. -/
def sFullRA1 : SDState :=
  { dev := devZero, sectors := 100, blocks := [⟨5, false, 0⟩, ⟨6, false, 1⟩],
    pool := fun _ _ => 0, cache_max_size := 2, read_ahead := 1, policy := .LRU, events := [] }

/-- The bypass configuration `cache_max_size = 0`, as produced by
`reset_cache(0, "LRU", 1)` (the constructor rejects it, see C9). -/
def sBypass : SDState := Cache.reset_cache sRA2 0 .LRU 1

/-- State after one `ioctl(6, 3)` (erase of block 3) on a fresh cache. -/
def c8Erase1 : SDState := (SDCard.ioctl (Cache.reset_cache sRA2 8 .LRUC 4) 6 3).2.1

/-- A full one-block cache holding dirty block 7 in front of a card that
rejects writes, used for C3's eviction-flush clauses. -/
def sFullDirtyFailW : SDState :=
  { dev := devWriteFail, sectors := 100, blocks := [⟨7, true, 0⟩], pool := fun _ _ => 0,
    cache_max_size := 1, read_ahead := 1, policy := .LRU, events := [] }

/-- A cache holding one dirty block 7 on a working card (resident-dirty
erase witness for C4). -/
def sDirty : SDState :=
  { dev := devZero, sectors := 100, blocks := [⟨7, true, 0⟩], pool := fun _ _ => 0,
    cache_max_size := 2, read_ahead := 1, policy := .LRU, events := [] }

/-- A full two-block cache of clean blocks 5 and 6 with `read_ahead = 2`
(no-collision multi-block fetch witness for C7). -/
def sFullRA2 : SDState :=
  { dev := devZero, sectors := 100, blocks := [⟨5, false, 0⟩, ⟨6, false, 1⟩],
    pool := fun _ _ => 0, cache_max_size := 2, read_ahead := 2, policy := .LRU, events := [] }

/-- An eight-block cache holding dirty blocks {100, 101, 102, 200, 201}
(the coalescing example of the spec), in recency order. -/
def sCoalesce : SDState :=
  { dev := devZero, sectors := 1000,
    blocks := [⟨200, true, 0⟩, ⟨101, true, 1⟩, ⟨100, true, 2⟩, ⟨201, true, 3⟩, ⟨102, true, 4⟩],
    pool := fun _ _ => 0, cache_max_size := 8, read_ahead := 1, policy := .LRUC, events := [] }

/-! ## Theorems -/

/-- **C1** (code bug).  The round-trip claim fails on the code: on a
freshly initialised driver with `read_ahead = 2` (`sRA2`), the successful
`writeblocks(10, buf7, 0)` is followed by a successful read of the
unrelated block 9 (the kind of intermediate traffic the claim says the
round trip must survive: it touches only blocks outside the written
range), after which `readblocks(10, out, 0)` returns the stale card
contents (byte 0) instead of the written `buf7` (byte 7): the not-full
read-ahead path of `Cache.get` re-bound the resident dirty block 10 to a
fresh slot and re-fetched it from the card, silently dropping the write.
(The repository's own `tests/fs_tests.py` records this: "TODO: Bug when
using read_ahead > 1".) -/
theorem c1_roundtrip_lost_after_unrelated_read :
    10 < sRA2.sectors ∧
    c1Write.1 = none ∧ c1ReadOther.1 = none ∧ c1ReadBack.1 = none ∧
    c1ReadBack.2.2 0 = 0 ∧ buf7 0 = 7 := by decide

/-- **C6** (code bug).  The slot invariant fails exactly in the scenario
the claim highlights: after `put(10, ·)`, a `get(9)` miss on the not-full
cache with `read_ahead = 2` re-binds the already-resident block 10 to a
fresh slot (orphaning slot 0) while `len(blocks)` stays 2, so the next
miss `get(20)` allocates slot 2 again: blocks 10 and 20 end up backed by
the same slot. -/
theorem c6_two_resident_blocks_share_a_slot :
    lookup c6Get2.blocks 10 = some ⟨10, false, 2⟩ ∧
    lookup c6Get2.blocks 20 = some ⟨20, false, 2⟩ := by decide

/-- **C3** (counterexample).  An IO error during a write issued from
`sync` does *not* leave the source block dirty: `Cache.sync` clears the
dirty flags while grouping, before any device write, so on `sDirtyFailW`
(one dirty block 7, card rejecting writes) `sync` raises `OSError(5)` and
leaves block 7 resident but clean — a later `sync` will not retry it. -/
theorem c3_sync_io_error_leaves_block_clean :
    (Cache.sync sDirtyFailW).1 = some .ioError ∧
    (Cache.sync sDirtyFailW).2.blocks = [⟨7, false, 0⟩] := by decide

/-- **C4** (counterexample).  In the bypass configuration
`cache_max_size = 0` (reachable via `reset_cache(0, "LRU", 1)`),
`ioctl(6, 5)` on an absent block returns 0 but block 5 is *not* resident
afterwards (the all-`0xFF` block is written through to the card), contrary
to the claim's unconditional "afterwards block n is resident". -/
theorem c4_bypass_erase_not_resident :
    (SDCard.ioctl sBypass 6 5).1 = none ∧
    lookup (SDCard.ioctl sBypass 6 5).2.1.blocks 5 = none := by decide

/-- **C5** (counterexample).  The facade performs no range check: on
`sRA2` (100 sectors), `writeblocks(200, buf7, 0)` succeeds and inserts
block 200 ≥ sectors into the cache index. -/
theorem c5_out_of_range_block_inserted :
    sRA2.sectors = 100 ∧
    (SDCard.writeblocks sRA2 200 512 buf7 0).1 = none ∧
    resident (SDCard.writeblocks sRA2 200 512 buf7 0).2.blocks 200 = true := by decide

/-- **C7** (counterexample).  With `read_ahead = 1` on the full cache
`sFullRA1` (clean blocks 5 and 6), the miss `get(9)` has no resident block
in `[9, 9 + read_ahead)`, so the claim's "otherwise" branch applies — yet
the fetch is a single-block CMD17, not the claimed multi-block CMD18. -/
theorem c7_no_collision_ra1_issues_cmd17 :
    (Cache.get sFullRA1 9 (fun _ => 0)).1 = none ∧
    (Cache.get sFullRA1 9 (fun _ => 0)).2.1.events = [Ev.readSingle 9] := by decide

/-- **C8** (counterexample).  Erase is not idempotent: after
`ioctl(6, 3)` on a fresh cache the block is resident and dirty, so the
second `ioctl(6, 3)` raises the erase-dirty `OSError` instead of
completing without error. -/
theorem c8_double_erase_raises_eraseDirty :
    (SDCard.ioctl c8Erase1 6 3).1 = some .eraseDirty := by decide

/-- **C9** (counterexample).  `Cache.__init__` rejects
`cache_max_size = 0, read_ahead = 1` with a `ValueError` ("Read ahead
must be between 1 and cache_max_size"), so this configuration cannot be
constructed; it does not succeed as the claim states. -/
theorem c9_init_zero_cache_rejected :
    Cache.mkInit devZero 100 0 .LRU 1 = .error .badConfig := by rfl

/-! ### Dictionary lemmas -/

theorem lookup_cons (b : Block) (bs : List Block) (k : Nat) :
    lookup (b :: bs) k = if b.block_num = k then some b else lookup bs k := by
  simp only [lookup, List.find?_cons]
  by_cases h : b.block_num = k
  · simp [h]
  · simp [h, beq_eq_false_iff_ne.mpr h]

theorem lookup_key_eq {bs : List Block} {k : Nat} {b : Block}
    (h : lookup bs k = some b) : b.block_num = k := by
  have := List.find?_some h
  simpa using this

theorem lookup_mem {bs : List Block} {k : Nat} {b : Block}
    (h : lookup bs k = some b) : b ∈ bs :=
  List.mem_of_find?_eq_some h

theorem lookup_eq_none_iff {bs : List Block} {k : Nat} :
    lookup bs k = none ↔ ∀ b ∈ bs, b.block_num ≠ k := by
  simp [lookup, List.find?_eq_none]

theorem lookup_append (bs cs : List Block) (k : Nat) :
    lookup (bs ++ cs) k = (lookup bs k).or (lookup cs k) := by
  simp [lookup, List.find?_append]

theorem lookup_eraseKey_self (bs : List Block) (k : Nat) :
    lookup (eraseKey bs k) k = none := by
  rw [lookup_eq_none_iff]
  intro b hb
  have := List.of_mem_filter hb
  simpa using this

theorem lookup_eraseKey_ne (bs : List Block) {k k' : Nat} (h : k' ≠ k) :
    lookup (eraseKey bs k) k' = lookup bs k' := by
  induction bs with
  | nil => rfl
  | cons b bs ih =>
    rw [eraseKey, List.filter_cons]
    rw [eraseKey] at ih
    by_cases hb : b.block_num = k
    · have hq : (b.block_num != k) = false := by simp [hb]
      rw [hq, if_neg (by simp), ih, lookup_cons, if_neg (by omega)]
    · have hq : (b.block_num != k) = true := by simp [hb]
      rw [hq, if_pos rfl, lookup_cons, lookup_cons, ih]

theorem lookup_setItem_self (bs : List Block) (b : Block) :
    lookup (setItem bs b) b.block_num = some b := by
  rw [setItem, lookup_append, lookup_eraseKey_self]
  simp [lookup_cons]

theorem lookup_setItem_ne (bs : List Block) (b : Block) {k : Nat}
    (h : k ≠ b.block_num) : lookup (setItem bs b) k = lookup bs k := by
  rw [setItem, lookup_append, lookup_eraseKey_ne bs h, lookup_cons]
  rw [if_neg (by omega)]
  cases lookup bs k <;> rfl

theorem lookup_moveToEnd (bs : List Block) (k k' : Nat) :
    lookup (moveToEnd bs k) k' = lookup bs k' := by
  rw [moveToEnd]
  cases hb : lookup bs k with
  | none => rfl
  | some b =>
    have hbk : b.block_num = k := lookup_key_eq hb
    by_cases h : k' = k
    · subst h
      rw [lookup_append, lookup_eraseKey_self, hb]
      simp [lookup_cons, hbk]
    · rw [lookup_append, lookup_eraseKey_ne bs h, lookup_cons,
        if_neg (by omega)]
      cases lookup bs k' <;> rfl

theorem lookup_updateBlock (bs : List Block) (k : Nat) (f : Block → Block)
    (hf : ∀ b, (f b).block_num = b.block_num) :
    lookup (updateBlock bs k f) k = (lookup bs k).map f := by
  induction bs with
  | nil => rfl
  | cons b bs ih =>
    rw [updateBlock, List.map_cons]
    rw [updateBlock] at ih
    by_cases hb : b.block_num = k
    · have hq : (b.block_num == k) = true := by simp [hb]
      rw [hq, if_pos rfl, lookup_cons, if_pos (by rw [hf]; exact hb),
        lookup_cons, if_pos hb]
      rfl
    · have hq : (b.block_num == k) = false := by simp [hb]
      rw [hq, if_neg (by simp), lookup_cons, if_neg hb, lookup_cons, if_neg hb, ih]

theorem upd_self {α : Type} (f : Nat → α) (i : Nat) (v : α) : upd f i v i = v := by
  simp [upd]

theorem upd_ne {α : Type} (f : Nat → α) {i j : Nat} (v : α) (h : j ≠ i) :
    upd f i v j = f j := by
  simp [upd, h]

/-! ### Device operation lemmas -/

theorem cfgEq_refl (s : SDState) : cfgEq s s :=
  ⟨rfl, rfl, rfl, rfl, rfl, rfl⟩

theorem cfgEq_trans {s t u : SDState} (h1 : cfgEq s t) (h2 : cfgEq t u) : cfgEq s u := by
  obtain ⟨a1, b1, c1, d1, e1, f1⟩ := h1
  obtain ⟨a2, b2, c2, d2, e2, f2⟩ := h2
  exact ⟨a2.trans a1, b2.trans b1, c2.trans c1, d2.trans d1, e2.trans e1, f2.trans f1⟩

theorem foldl_upd_notin {α β : Type} (g : β → Nat) (v : β → α) :
    ∀ (l : List β) (p : Nat → α) (t : Nat), (∀ x ∈ l, g x ≠ t) →
      (l.foldl (fun p x => upd p (g x) (v x)) p) t = p t := by
  intro l
  induction l with
  | nil => intro p t _; rfl
  | cons x l ih =>
    intro p t h
    rw [List.foldl_cons, ih _ t (fun y hy => h y (List.mem_cons_of_mem _ hy)),
      upd_ne _ _ (Ne.symm (h x (List.mem_cons_self _ _)))]

theorem snd_mem_enumFrom {β : Type} :
    ∀ (l : List β) (n : Nat) (q : Nat × β), q ∈ List.enumFrom n l → q.2 ∈ l := by
  intro l
  induction l with
  | nil => intro n q h; simp [List.enumFrom] at h
  | cons x l ih =>
    intro n q h
    rw [List.enumFrom] at h
    rcases List.mem_cons.mp h with h | h
    · subst h; exact List.mem_cons_self _ _
    · exact List.mem_cons_of_mem _ (ih (n + 1) q h)

theorem write_to_device_single (s : SDState) (b : Block)
    (h : s.dev.failWrite b.block_num = false) :
    Cache.write_to_device s [b] =
      (none, { s with
        dev := { s.dev with data := upd s.dev.data b.block_num (s.pool b.slot) },
        events := s.events ++ [.writeSingle b.block_num] }) := by
  simp [Cache.write_to_device, h]

theorem write_to_device_fail (s : SDState) (c : Block) (rest : List Block)
    (h : s.dev.failWrite c.block_num = true) :
    Cache.write_to_device s (c :: rest) = (some .ioError, s) := by
  cases rest <;> simp [Cache.write_to_device, h]

theorem chain_run_get :
    ∀ (tl : List Block) (c : Block),
      List.Chain' (fun x y => y.block_num = x.block_num + 1) (c :: tl) →
      ∀ (i : Nat) (h : i < (c :: tl).length),
        ((c :: tl).get ⟨i, h⟩).block_num = c.block_num + i := by
  intro tl
  induction tl with
  | nil =>
    intro c _ i h
    have hi : i = 0 := by
      simp only [List.length_cons, List.length_nil] at h
      omega
    subst hi
    simp
  | cons b tl' ih =>
    intro c hchain i h
    rw [List.chain'_cons] at hchain
    cases i with
    | zero => simp
    | succ j =>
      have hj : j < (b :: tl').length := by
        simp only [List.length_cons] at h ⊢
        omega
      have := ih b hchain.2 j hj
      simp only [List.get_cons_succ]
      rw [this, hchain.1]
      omega

theorem mem_enumFrom_get {β : Type} :
    ∀ (l : List β) (n : Nat) (q : Nat × β), q ∈ List.enumFrom n l →
      n ≤ q.1 ∧ ∃ h : q.1 - n < l.length, l.get ⟨q.1 - n, h⟩ = q.2 := by
  intro l
  induction l with
  | nil => intro n q h; simp [List.enumFrom] at h
  | cons x l ih =>
    intro n q h
    rw [List.enumFrom] at h
    rcases List.mem_cons.mp h with h | h
    · subst h
      refine ⟨Nat.le_refl _, ?_⟩
      simp
    · obtain ⟨hle, hlt, hget⟩ := ih (n + 1) q h
      refine ⟨by omega, ?_⟩
      have hq : q.1 - n = (q.1 - (n + 1)) + 1 := by omega
      rw [hq]
      refine ⟨by simp only [List.length_cons]; omega, ?_⟩
      simp only [List.get_cons_succ]
      exact hget

theorem map_snd_enumFrom {β γ : Type} (g : β → γ) :
    ∀ (l : List β) (n : Nat), (List.enumFrom n l).map (fun q => g q.2) = l.map g := by
  intro l
  induction l with
  | nil => intro n; rfl
  | cons x l ih =>
    intro n
    rw [List.enumFrom, List.map_cons, List.map_cons, ih (n + 1)]

theorem write_to_device_ok (s : SDState) (c : Block) (rest : List Block)
    (h : s.dev.failWrite c.block_num = false) :
    ∃ d', Cache.write_to_device s (c :: rest) =
      (none, { s with dev := { s.dev with data := d' },
                      events := s.events ++ [evOf (c :: rest)] }) ∧
      (List.Chain' (fun x y => y.block_num = x.block_num + 1) (c :: rest) →
        ∀ t, (∀ x ∈ c :: rest, x.block_num ≠ t) → d' t = s.dev.data t) := by
  cases rest with
  | nil =>
    refine ⟨upd s.dev.data c.block_num (s.pool c.slot), write_to_device_single s c h, ?_⟩
    intro _ t ht
    exact upd_ne _ _ (Ne.symm (ht c (List.mem_cons_self _ _)))
  | cons c1 rest =>
    refine ⟨(c :: c1 :: rest).enum.foldl
      (fun d p => upd d (c.block_num + p.1) (s.pool p.2.slot)) s.dev.data,
      by simp [Cache.write_to_device, h, evOf], ?_⟩
    intro hchain t ht
    refine foldl_upd_notin (fun p : Nat × Block => c.block_num + p.1)
      (fun p : Nat × Block => s.pool p.2.slot) _ _ _ ?_
    intro q hq
    have henum : q ∈ List.enumFrom 0 (c :: c1 :: rest) := hq
    obtain ⟨-, hlt, hget⟩ := mem_enumFrom_get _ 0 q henum
    have hkey := chain_run_get (c1 :: rest) c hchain (q.1 - 0) hlt
    rw [hget] at hkey
    have hmem : q.2 ∈ c :: c1 :: rest := by
      rw [← hget]
      exact List.get_mem _ _ hlt
    have := ht q.2 hmem
    simp only [Nat.sub_zero] at hkey
    show c.block_num + q.1 ≠ t
    rw [← hkey]
    exact this

theorem read_from_device_ok (s : SDState) (c : Block) (rest : List Block)
    (h : s.dev.failRead c.block_num = false) :
    ∃ p', Cache.read_from_device s (c :: rest) =
      (none, { s with pool := p',
                      events := s.events ++
                        [(if rest.isEmpty then Ev.readSingle c.block_num
                          else Ev.readMulti c.block_num (c :: rest).length)] }) ∧
      ((∀ x ∈ rest, x.slot ≠ c.slot) → p' c.slot = s.dev.data c.block_num) := by
  cases rest with
  | nil =>
    refine ⟨upd s.pool c.slot (s.dev.data c.block_num),
      by simp [Cache.read_from_device, h], ?_⟩
    intro _
    exact upd_self _ _ _
  | cons c1 rest =>
    refine ⟨(c :: c1 :: rest).enum.foldl
      (fun p q => upd p q.2.slot (s.dev.data (c.block_num + q.1))) s.pool,
      by simp [Cache.read_from_device, h], ?_⟩
    intro hdisj
    rw [List.enum_cons, List.foldl_cons]
    rw [foldl_upd_notin (fun q => q.2.slot) _ _ _ c.slot
      (fun q hq => hdisj q.2 (snd_mem_enumFrom _ _ _ hq))]
    exact upd_self _ _ _

/-! ### Run-grouping lemmas (`Cache.sync`'s coalescing loop) -/

theorem groupRuns_head (l : List Block) :
    ∀ a : Block, ∃ t gs, groupRuns (a :: l) = (a :: t) :: gs := by
  induction l with
  | nil => intro a; exact ⟨[], [], rfl⟩
  | cons b rest ih =>
    intro a
    obtain ⟨t', gs', heq⟩ := ih b
    by_cases hb : b.block_num = a.block_num + 1
    · rw [groupRuns, if_pos hb, heq]
      exact ⟨b :: t', gs', rfl⟩
    · rw [groupRuns, if_neg hb]
      exact ⟨[], groupRuns (b :: rest), rfl⟩

theorem groupRuns_flatten : ∀ l : List Block, (groupRuns l).flatten = l := by
  intro l
  induction l with
  | nil => rfl
  | cons a l ih =>
    cases l with
    | nil => rfl
    | cons b rest =>
      by_cases hb : b.block_num = a.block_num + 1
      · obtain ⟨t', gs', heq⟩ := groupRuns_head rest b
        rw [groupRuns, if_pos hb, heq]
        rw [heq] at ih
        simpa using ih
      · rw [groupRuns, if_neg hb]
        simpa using ih

theorem groupRuns_mem_ne_nil : ∀ l : List Block, ∀ g ∈ groupRuns l, g ≠ [] := by
  intro l
  induction l with
  | nil => intro g hg; simp [groupRuns] at hg
  | cons a l ih =>
    cases l with
    | nil =>
      intro g hg
      rw [groupRuns] at hg
      rcases List.mem_singleton.mp hg with h
      simp [h]
    | cons b rest =>
      intro g hg
      by_cases hb : b.block_num = a.block_num + 1
      · obtain ⟨t', gs', heq⟩ := groupRuns_head rest b
        rw [groupRuns, if_pos hb, heq] at hg
        rcases List.mem_cons.mp hg with h | h
        · simp [h]
        · exact ih g (heq ▸ List.mem_cons_of_mem _ h)
      · rw [groupRuns, if_neg hb] at hg
        rcases List.mem_cons.mp hg with h | h
        · simp [h]
        · exact ih g h

theorem groupRuns_chain :
    ∀ l : List Block, ∀ g ∈ groupRuns l,
      List.Chain' (fun x y => y.block_num = x.block_num + 1) g := by
  intro l
  induction l with
  | nil => intro g hg; simp [groupRuns] at hg
  | cons a l ih =>
    cases l with
    | nil =>
      intro g hg
      rw [groupRuns] at hg
      rcases List.mem_singleton.mp hg with h
      rw [h]
      exact List.chain'_singleton a
    | cons b rest =>
      intro g hg
      by_cases hb : b.block_num = a.block_num + 1
      · obtain ⟨t', gs', heq⟩ := groupRuns_head rest b
        rw [groupRuns, if_pos hb, heq] at hg
        rcases List.mem_cons.mp hg with h | h
        · rw [h, List.chain'_cons]
          exact ⟨hb, ih (b :: t') (heq ▸ List.mem_cons_self _ _)⟩
        · exact ih g (heq ▸ List.mem_cons_of_mem _ h)
      · rw [groupRuns, if_neg hb] at hg
        rcases List.mem_cons.mp hg with h | h
        · rw [h]; exact List.chain'_singleton a
        · exact ih g h

theorem groupRuns_boundary :
    ∀ l : List Block,
      List.Chain'
        (fun g h => ∀ x ∈ g.getLast?, ∀ y ∈ h.head?, y.block_num ≠ x.block_num + 1)
        (groupRuns l) := by
  intro l
  induction l with
  | nil => simp [groupRuns]
  | cons a l ih =>
    cases l with
    | nil => rw [groupRuns]; exact List.chain'_singleton _
    | cons b rest =>
      by_cases hb : b.block_num = a.block_num + 1
      · obtain ⟨t', gs', heq⟩ := groupRuns_head rest b
        rw [groupRuns, if_pos hb, heq]
        rw [heq] at ih
        cases gs' with
        | nil => exact List.chain'_singleton _
        | cons g2 gs2 =>
          rw [List.chain'_cons] at ih ⊢
          refine ⟨?_, ih.2⟩
          intro x hx y hy
          rw [List.getLast?_cons_cons] at hx
          exact ih.1 x hx y hy
      · rw [groupRuns, if_neg hb]
        obtain ⟨t', gs', heq⟩ := groupRuns_head rest b
        rw [heq]
        rw [heq] at ih
        rw [List.chain'_cons]
        refine ⟨?_, ih⟩
        intro x hx y hy
        simp only [List.getLast?_singleton, Option.mem_def, Option.some.injEq] at hx
        simp only [List.head?_cons, Option.mem_def, Option.some.injEq] at hy
        rw [hx, hy] at hb
        exact fun hc => hb hc

theorem chain_run_bounds :
    ∀ (tl : List Block) (hd : Block),
      List.Chain' (fun x y => y.block_num = x.block_num + 1) (hd :: tl) →
      ∀ x ∈ hd :: tl,
        hd.block_num ≤ x.block_num ∧ x.block_num < hd.block_num + (hd :: tl).length := by
  intro tl
  induction tl with
  | nil =>
    intro hd _ x hx
    rcases List.mem_singleton.mp hx with h
    rw [h]
    simp
  | cons b tl' ih =>
    intro hd hchain x hx
    rw [List.chain'_cons] at hchain
    rcases List.mem_cons.mp hx with h | h
    · rw [h]; simp
    · have := ih b hchain.2 x h
      have hb := hchain.1
      constructor
      · omega
      · simp only [List.length_cons] at this ⊢
        omega

/-- The write transaction of a nonempty consecutive run covers every
member of the run. -/
theorem evOf_covers {g : List Block} {c : Block} {rest : List Block}
    (hg : g = c :: rest)
    (hchain : List.Chain' (fun x y => y.block_num = x.block_num + 1) g)
    {x : Block} (hx : x ∈ g) :
    evOf g = Ev.writeSingle x.block_num ∨
    ∃ st n, evOf g = Ev.writeMulti st n ∧ st ≤ x.block_num ∧ x.block_num < st + n := by
  subst hg
  cases rest with
  | nil =>
    rcases List.mem_singleton.mp hx with h
    rw [h]
    exact Or.inl rfl
  | cons c1 rest' =>
    right
    refine ⟨c.block_num, (c :: c1 :: rest').length, rfl, ?_⟩
    exact chain_run_bounds _ c hchain x hx

/-! ### `Cache.sync` lemmas -/

theorem writeGroups_ok :
    ∀ (gs : List (List Block)) (s : SDState),
      (∀ t, s.dev.failWrite t = false) → (∀ g ∈ gs, g ≠ []) →
      ∃ d', writeGroups gs s =
        (none, { s with dev := { s.dev with data := d' },
                        events := s.events ++ gs.map evOf }) ∧
        (∀ t, (∀ g ∈ gs, List.Chain' (fun x y => y.block_num = x.block_num + 1) g) →
          (∀ g ∈ gs, ∀ x ∈ g, x.block_num ≠ t) → d' t = s.dev.data t) := by
  intro gs
  induction gs with
  | nil =>
    intro s _ _
    exact ⟨s.dev.data, by simp [writeGroups], fun t _ _ => rfl⟩
  | cons g gs ih =>
    intro s hW hne
    obtain ⟨c, rest, hg⟩ : ∃ c rest, g = c :: rest := by
      cases g with
      | nil => exact absurd rfl (hne [] (List.mem_cons_self _ _))
      | cons c rest => exact ⟨c, rest, rfl⟩
    subst hg
    obtain ⟨d1, h1, hpres1⟩ := write_to_device_ok s c rest (hW c.block_num)
    obtain ⟨d2, h2, hpres2⟩ := ih { s with dev := { s.dev with data := d1 },
                                           events := s.events ++ [evOf (c :: rest)] }
      (fun t => hW t) (fun g hg => hne g (List.mem_cons_of_mem _ hg))
    refine ⟨d2, ?_, ?_⟩
    · have hstep : writeGroups ((c :: rest) :: gs) s =
          writeGroups gs { s with dev := { s.dev with data := d1 },
                                  events := s.events ++ [evOf (c :: rest)] } := by
        rw [writeGroups, h1]
      rw [hstep, h2]
      simp
    · intro t hchains hts
      rw [hpres2 t (fun g hg => hchains g (List.mem_cons_of_mem _ hg))
        (fun g hg => hts g (List.mem_cons_of_mem _ hg))]
      exact hpres1 (hchains _ (List.mem_cons_self _ _))
        t (hts _ (List.mem_cons_self _ _))

theorem sync_ok (s : SDState) (hW : ∀ t, s.dev.failWrite t = false)
    (hmax : s.cache_max_size ≠ 0) :
    ∃ d', Cache.sync s =
      (none, { s with
        blocks := s.blocks.map (fun b => if b.dirty then { b with dirty := false } else b),
        dev := { s.dev with data := d' },
        events := s.events ++
          (groupRuns (sortByKey (s.blocks.filter (fun b => b.dirty)))).map evOf }) ∧
      (∀ t, (∀ x ∈ s.blocks, x.block_num ≠ t) → d' t = s.dev.data t) := by
  rw [Cache.sync, if_neg hmax]
  by_cases hE : (sortByKey (s.blocks.filter (fun b => b.dirty))).isEmpty = true
  · rw [if_pos hE]
    have hnil : sortByKey (s.blocks.filter (fun b => b.dirty)) = [] :=
      List.isEmpty_iff.mp hE
    have hfil : s.blocks.filter (fun b => b.dirty) = [] := by
      have hperm := List.perm_insertionSort keyLE (s.blocks.filter (fun b => b.dirty))
      rw [sortByKey] at hnil
      rw [hnil] at hperm
      exact hperm.symm.eq_nil
    have hclean : ∀ b ∈ s.blocks, b.dirty = false := by
      intro b hb
      have := List.filter_eq_nil_iff.mp hfil b hb
      simpa using this
    have hmap : s.blocks.map (fun b => if b.dirty then { b with dirty := false } else b)
        = s.blocks := by
      conv_rhs => rw [← List.map_id s.blocks]
      apply List.map_congr_left
      intro b hb
      simp [hclean b hb]
    refine ⟨s.dev.data, ?_, fun t _ => rfl⟩
    rw [hnil, hmap]
    simp [groupRuns]
  · rw [if_neg hE]
    obtain ⟨d', h, hpres⟩ := writeGroups_ok
      (groupRuns (sortByKey (s.blocks.filter (fun b => b.dirty))))
      { s with blocks := s.blocks.map (fun b => if b.dirty then { b with dirty := false } else b) }
      (fun t => hW t)
      (groupRuns_mem_ne_nil _)
    refine ⟨d', h, ?_⟩
    intro t ht
    refine hpres t (fun g hg => groupRuns_chain _ g hg) ?_
    intro g hg x hx
    have hflat : x ∈ (groupRuns (sortByKey (s.blocks.filter (fun b => b.dirty)))).flatten :=
      List.mem_flatten.mpr ⟨g, hg, hx⟩
    rw [groupRuns_flatten] at hflat
    have hperm : x ∈ s.blocks.filter (fun b => b.dirty) := by
      rw [sortByKey] at hflat
      exact (List.perm_insertionSort keyLE _).mem_iff.mp hflat
    exact ht x (List.mem_filter.mp hperm).1

theorem evOf_isWrite : ∀ g : List Block, (evOf g).isWrite = true := by
  intro g
  cases g with
  | nil => rfl
  | cons c rest => cases rest <;> rfl

theorem clearDirty_map_key (bs : List Block) :
    ((bs.map (fun b => if b.dirty then { b with dirty := false } else b)).map
      (fun b => b.block_num)) = bs.map (fun b => b.block_num) := by
  rw [List.map_map]
  apply List.map_congr_left
  intro b _
  by_cases h : b.dirty <;> simp [h]

theorem clearDirty_map_slot (bs : List Block) :
    ((bs.map (fun b => if b.dirty then { b with dirty := false } else b)).map
      (fun b => b.slot)) = bs.map (fun b => b.slot) := by
  rw [List.map_map]
  apply List.map_congr_left
  intro b _
  by_cases h : b.dirty <;> simp [h]

theorem lookup_foldl_setItem_ne :
    ∀ (nb : List Block) (bs : List Block) (k : Nat), (∀ x ∈ nb, x.block_num ≠ k) →
      lookup (nb.foldl setItem bs) k = lookup bs k := by
  intro nb
  induction nb with
  | nil => intro bs k _; rfl
  | cons x nb ih =>
    intro bs k h
    rw [List.foldl_cons, ih _ k (fun y hy => h y (List.mem_cons_of_mem _ hy)),
      lookup_setItem_ne _ _ (Ne.symm (h x (List.mem_cons_self _ _)))]

/-- `Cache.block_evictor` on a working card: no error, the index keeps the
same keys and slots (LRUC may sync, which only clears dirty flags), the
pool and configuration are untouched, only write traffic is emitted, card
data changes only at resident block numbers, and when `0 < n ≤ |index|`
exactly `n` blocks are selected, all of them members of the resulting
index. -/
theorem block_evictor_ok (s : SDState) (n : Nat)
    (hW : ∀ t, s.dev.failWrite t = false) (hmax : s.cache_max_size ≠ 0) :
    ∃ s1 ev, Cache.block_evictor s n = (none, s1, ev) ∧
      ev.Sublist s1.blocks ∧
      s1.blocks.map (fun b => b.block_num) = s.blocks.map (fun b => b.block_num) ∧
      s1.blocks.map (fun b => b.slot) = s.blocks.map (fun b => b.slot) ∧
      s1.pool = s.pool ∧ cfgEq s s1 ∧
      (∃ evs, s1.events = s.events ++ evs ∧ ∀ e ∈ evs, e.isWrite = true) ∧
      (∀ t, (∀ x ∈ s.blocks, x.block_num ≠ t) → s1.dev.data t = s.dev.data t) ∧
      (n ≠ 0 → n ≤ s.blocks.length → ev.length = n) := by
  cases hp : s.policy with
  | LRU =>
    refine ⟨s, s.blocks.take n, by rw [Cache.block_evictor, hp], List.take_sublist n _,
      rfl, rfl, rfl, cfgEq_refl s, ⟨[], (List.append_nil _).symm, by simp⟩,
      fun t _ => rfl, ?_⟩
    intro _ hn
    rw [List.length_take]
    omega
  | LRUC =>
    by_cases hc : n ≠ 0 ∧ n ≤ (s.blocks.filter (fun b => !b.dirty)).length
    · refine ⟨s, (s.blocks.filter (fun b => !b.dirty)).take n,
        by rw [Cache.block_evictor, hp, if_pos hc],
        ((List.take_sublist _ _).trans (List.filter_sublist _)),
        rfl, rfl, rfl, cfgEq_refl s, ⟨[], (List.append_nil _).symm, by simp⟩,
        fun t _ => rfl, ?_⟩
      intro _ _
      rw [List.length_take]
      omega
    · obtain ⟨d', hs, hpres⟩ := sync_ok s hW hmax
      refine ⟨{ s with
          blocks := s.blocks.map (fun b => if b.dirty then { b with dirty := false } else b),
          dev := { s.dev with data := d' },
          policy := Policy.LRUC,
          events := s.events ++
            (groupRuns (sortByKey (s.blocks.filter (fun b => b.dirty)))).map evOf },
        (s.blocks.map (fun b => if b.dirty then { b with dirty := false } else b)).take n,
        ?_, List.take_sublist n _, clearDirty_map_key _, clearDirty_map_slot _,
        rfl, ⟨rfl, rfl, rfl, hp.symm, rfl, rfl⟩, ?_, ?_, ?_⟩
      · rw [Cache.block_evictor, hp, if_neg hc, hs]
        rw [hp]
      · exact ⟨_, rfl, by
          intro e he
          obtain ⟨g, _, hg⟩ := List.mem_map.mp he
          rw [← hg]
          exact evOf_isWrite g⟩
      · intro t ht
        exact hpres t ht
      · intro _ hn
        rw [List.length_take, List.length_map]
        omega

/-- The eviction loop of `Cache.get` on a working card: no error, pool and
configuration untouched, only write traffic, card data changes only at the
victims' block numbers, and (when started past the first slot) the binding
of any key different from all victims' keys is untouched. -/
theorem evictLoop_ok (bn : Nat) :
    ∀ (l : List Block) (i : Nat) (s : SDState),
      (∀ t, s.dev.failWrite t = false) →
      ∃ s2, evictLoop bn i l s = (none, s2) ∧
        s2.pool = s.pool ∧ cfgEq s s2 ∧
        (∃ evs, s2.events = s.events ++ evs ∧ ∀ e ∈ evs, e.isWrite = true) ∧
        (∀ t, (∀ x ∈ l, x.block_num ≠ t) → s2.dev.data t = s.dev.data t) ∧
        (1 ≤ i → (∀ x ∈ l, x.block_num ≠ bn) → lookup s2.blocks bn = lookup s.blocks bn) := by
  intro l
  induction l with
  | nil =>
    intro i s _
    exact ⟨s, rfl, rfl, cfgEq_refl s, ⟨[], (List.append_nil _).symm, by simp⟩,
      fun t _ => rfl, fun _ _ => rfl⟩
  | cons b rest ih =>
    intro i s hW
    by_cases hd : b.dirty = true
    · have hw := write_to_device_single s b (hW b.block_num)
      obtain ⟨s2, heq, hpool, hcfg, ⟨evs, hevs, hevsW⟩, hdata, hlook⟩ :=
        ih (i + 1)
          { s with
            dev := { s.dev with data := upd s.dev.data b.block_num (s.pool b.slot) },
            events := s.events ++ [Ev.writeSingle b.block_num],
            blocks := setItem (eraseKey s.blocks b.block_num) ⟨bn + i, false, b.slot⟩ }
          (fun t => hW t)
      refine ⟨s2, ?_, hpool, cfgEq_trans ⟨rfl, rfl, rfl, rfl, rfl, rfl⟩ hcfg,
        ⟨Ev.writeSingle b.block_num :: evs, ?_, ?_⟩, ?_, ?_⟩
      · rw [evictLoop, if_pos hd, hw]
        exact heq
      · rw [hevs]
        simp
      · intro e he
        rcases List.mem_cons.mp he with h | h
        · rw [h]; rfl
        · exact hevsW e h
      · intro t ht
        rw [hdata t (fun x hx => ht x (List.mem_cons_of_mem _ hx))]
        exact upd_ne _ _ (Ne.symm (ht b (List.mem_cons_self _ _)))
      · intro hi hk
        rw [hlook (by omega) (fun x hx => hk x (List.mem_cons_of_mem _ hx))]
        rw [lookup_setItem_ne _ _ (by show bn ≠ bn + i; omega)]
        rw [lookup_eraseKey_ne _ (Ne.symm (hk b (List.mem_cons_self _ _)))]
    · have hd' : b.dirty = false := by
        cases hb : b.dirty
        · rfl
        · exact absurd hb hd
      obtain ⟨s2, heq, hpool, hcfg, ⟨evs, hevs, hevsW⟩, hdata, hlook⟩ :=
        ih (i + 1)
          { s with blocks := setItem (eraseKey s.blocks b.block_num) ⟨bn + i, false, b.slot⟩ }
          (fun t => hW t)
      refine ⟨s2, ?_, hpool, cfgEq_trans ⟨rfl, rfl, rfl, rfl, rfl, rfl⟩ hcfg,
        ⟨evs, hevs, hevsW⟩, ?_, ?_⟩
      · rw [evictLoop, if_neg (by simp [hd'])]
        exact heq
      · intro t ht
        exact hdata t (fun x hx => ht x (List.mem_cons_of_mem _ hx))
      · intro hi hk
        rw [hlook (by omega) (fun x hx => hk x (List.mem_cons_of_mem _ hx))]
        rw [lookup_setItem_ne _ _ (by show bn ≠ bn + i; omega)]
        rw [lookup_eraseKey_ne _ (Ne.symm (hk b (List.mem_cons_self _ _)))]

/-- Running the eviction loop from the start on a nonempty victim list
whose keys all differ from `bn`: afterwards `bn` is bound to a clean block
in the first victim's slot. -/
theorem evictLoop_start (bn : Nat) (e0 : Block) (erest : List Block) (s : SDState)
    (hW : ∀ t, s.dev.failWrite t = false)
    (hkeys : ∀ x ∈ e0 :: erest, x.block_num ≠ bn) :
    ∃ s2, evictLoop bn 0 (e0 :: erest) s = (none, s2) ∧
      s2.pool = s.pool ∧ cfgEq s s2 ∧
      (∃ evs, s2.events = s.events ++ evs ∧ ∀ e ∈ evs, e.isWrite = true) ∧
      (∀ t, (∀ x ∈ e0 :: erest, x.block_num ≠ t) → s2.dev.data t = s.dev.data t) ∧
      lookup s2.blocks bn = some ⟨bn, false, e0.slot⟩ := by
  by_cases hd : e0.dirty = true
  · have hw := write_to_device_single s e0 (hW e0.block_num)
    obtain ⟨s2, heq, hpool, hcfg, ⟨evs, hevs, hevsW⟩, hdata, hlook⟩ :=
      evictLoop_ok bn erest 1
        { s with
          dev := { s.dev with data := upd s.dev.data e0.block_num (s.pool e0.slot) },
          events := s.events ++ [Ev.writeSingle e0.block_num],
          blocks := setItem (eraseKey s.blocks e0.block_num) ⟨bn + 0, false, e0.slot⟩ }
        (fun t => hW t)
    refine ⟨s2, ?_, hpool, cfgEq_trans ⟨rfl, rfl, rfl, rfl, rfl, rfl⟩ hcfg,
      ⟨Ev.writeSingle e0.block_num :: evs, ?_, ?_⟩, ?_, ?_⟩
    · rw [evictLoop, if_pos hd, hw]
      exact heq
    · rw [hevs]; simp
    · intro e he
      rcases List.mem_cons.mp he with h | h
      · rw [h]; rfl
      · exact hevsW e h
    · intro t ht
      rw [hdata t (fun x hx => ht x (List.mem_cons_of_mem _ hx))]
      exact upd_ne _ _ (Ne.symm (ht e0 (List.mem_cons_self _ _)))
    · rw [hlook (Nat.le_refl 1) (fun x hx => hkeys x (List.mem_cons_of_mem _ hx))]
      exact lookup_setItem_self _ _
  · obtain ⟨s2, heq, hpool, hcfg, ⟨evs, hevs, hevsW⟩, hdata, hlook⟩ :=
      evictLoop_ok bn erest 1
        { s with blocks := setItem (eraseKey s.blocks e0.block_num) ⟨bn + 0, false, e0.slot⟩ }
        (fun t => hW t)
    have hd' : e0.dirty = false := by
      cases hb : e0.dirty
      · rfl
      · exact absurd hb hd
    refine ⟨s2, ?_, hpool, cfgEq_trans ⟨rfl, rfl, rfl, rfl, rfl, rfl⟩ hcfg,
      ⟨evs, hevs, hevsW⟩, ?_, ?_⟩
    · rw [evictLoop, if_neg (by simp [hd'])]
      exact heq
    · intro t ht
      exact hdata t (fun x hx => ht x (List.mem_cons_of_mem _ hx))
    · rw [hlook (Nat.le_refl 1) (fun x hx => hkeys x (List.mem_cons_of_mem _ hx))]
      exact lookup_setItem_self _ _

/-- `Cache.get` on a working card from a sane configuration
(`0 < read_ahead ≤ cache_max_size`, `|index| ≤ cache_max_size`, distinct
slots): it succeeds, the requested block ends up resident and clean or
dirty as before, the returned 512 bytes are the block's pre-call view
(cache content if it was resident, card content otherwise), they coincide
with the resident block's content after the call, and the configuration
is unchanged. -/
theorem get_spec (s : SDState) (bn : Nat) (buf : Bytes)
    (hmax : 0 < s.cache_max_size) (hra : 0 < s.read_ahead)
    (hra2 : s.read_ahead ≤ s.cache_max_size)
    (hlen : s.blocks.length ≤ s.cache_max_size)
    (hR : ∀ t, s.dev.failRead t = false) (hW : ∀ t, s.dev.failWrite t = false)
    (hslots : (s.blocks.map (fun b => b.slot)).Nodup) :
    ∃ s' blk, Cache.get s bn buf = (none, s', s'.pool blk.slot) ∧
      lookup s'.blocks bn = some blk ∧
      (∀ i, s'.pool blk.slot i = view s bn i) ∧
      cfgEq s s' := by
  have hmax0 : ¬(s.cache_max_size = 0) := by omega
  cases hl : lookup s.blocks bn with
  | some b =>
    refine ⟨{ s with blocks := moveToEnd s.blocks bn }, b, ?_, ?_, ?_,
      ⟨rfl, rfl, rfl, rfl, rfl, rfl⟩⟩
    · unfold Cache.get
      rw [if_neg hmax0]
      simp only [hl]
    · rw [lookup_moveToEnd]
      exact hl
    · intro i
      rw [view, hl]
  | none =>
    have hsdata : ∀ x ∈ s.blocks, x.block_num ≠ bn := lookup_eq_none_iff.mp hl
    by_cases hfull : s.blocks.length = s.cache_max_size
    · -- cache full: evict, rebind, fetch
      obtain ⟨s1, ev, hev, hsub, hkeys1, hslots1, hpool1, hcfg1,
        ⟨evs1, hevs1, hevs1W⟩, hdata1, hlenev⟩ :=
        block_evictor_ok s
          (if ((List.range' bn s.read_ahead).any fun k => resident s.blocks k) = true
           then 1 else s.read_ahead) hW hmax0
      have hRA0 : (if ((List.range' bn s.read_ahead).any fun k => resident s.blocks k) = true
          then 1 else s.read_ahead) ≠ 0 := by
        by_cases h : ((List.range' bn s.read_ahead).any fun k => resident s.blocks k) = true
        · rw [if_pos h]; omega
        · rw [if_neg h]; omega
      have hRAle : (if ((List.range' bn s.read_ahead).any fun k => resident s.blocks k) = true
          then 1 else s.read_ahead) ≤ s.blocks.length := by
        by_cases h : ((List.range' bn s.read_ahead).any fun k => resident s.blocks k) = true
        · rw [if_pos h]; omega
        · rw [if_neg h]; omega
      have hevlen := hlenev hRA0 hRAle
      cases ev with
      | nil => rw [List.length_nil] at hevlen; exact absurd hevlen.symm hRA0
      | cons e0 erest =>
        have hbnkeys : ∀ x ∈ e0 :: erest, x.block_num ≠ bn := by
          intro x hx
          have hxmem : x ∈ s1.blocks := hsub.subset hx
          have hxk : x.block_num ∈ s1.blocks.map (fun b => b.block_num) :=
            List.mem_map_of_mem _ hxmem
          rw [hkeys1] at hxk
          obtain ⟨y, hy, hyk⟩ := List.mem_map.mp hxk
          rw [← hyk]
          exact hsdata y hy
        have hW1 : ∀ t, s1.dev.failWrite t = false := by
          intro t
          rw [hcfg1.2.2.2.2.2]
          exact hW t
        obtain ⟨s2, hloop, hpool2, hcfg2, ⟨evs2, hevs2, hevs2W⟩, hdata2, hlook2⟩ :=
          evictLoop_start bn e0 erest s1 hW1 hbnkeys
        have hnb : ((e0 :: erest).enum.map
              (fun p => ({ block_num := bn + p.1, dirty := false, slot := p.2.slot } : Block)))
            = ({ block_num := bn + 0, dirty := false, slot := e0.slot } : Block) ::
              ((List.enumFrom 1 erest).map
                (fun p => ({ block_num := bn + p.1, dirty := false, slot := p.2.slot } : Block))) := by
          rw [List.enum_cons, List.map_cons]
        have hR2 : ∀ t, s2.dev.failRead t = false := by
          intro t
          rw [(cfgEq_trans hcfg1 hcfg2).2.2.2.2.1]
          exact hR t
        obtain ⟨p', hread, hpval⟩ := read_from_device_ok s2
          ({ block_num := bn + 0, dirty := false, slot := e0.slot } : Block)
          ((List.enumFrom 1 erest).map
            (fun p => ({ block_num := bn + p.1, dirty := false, slot := p.2.slot } : Block)))
          (hR2 (bn + 0))
        have hslotsev : ((e0 :: erest).map (fun b => b.slot)).Nodup := by
          have hsubm : ((e0 :: erest).map (fun b => b.slot)).Sublist
              (s1.blocks.map (fun b => b.slot)) := hsub.map _
          rw [hslots1] at hsubm
          exact List.Nodup.sublist hsubm hslots
        have hdisj : ∀ x ∈ (List.enumFrom 1 erest).map
            (fun p => ({ block_num := bn + p.1, dirty := false, slot := p.2.slot } : Block)),
            x.slot ≠ ({ block_num := bn + 0, dirty := false, slot := e0.slot } : Block).slot := by
          intro x hx
          obtain ⟨q, hq, hqx⟩ := List.mem_map.mp hx
          have hq2 : q.2 ∈ erest := snd_mem_enumFrom _ _ _ hq
          rw [← hqx]
          show q.2.slot ≠ e0.slot
          rw [List.map_cons, List.nodup_cons] at hslotsev
          intro hc
          exact hslotsev.1 (hc ▸ List.mem_map_of_mem _ hq2)
        have hpv := hpval hdisj
        refine ⟨(Cache.read_from_device s2 ((e0 :: erest).enum.map
            (fun p => ({ block_num := bn + p.1, dirty := false, slot := p.2.slot } : Block)))).2,
          ({ block_num := bn, dirty := false, slot := e0.slot } : Block), ?_, ?_, ?_, ?_⟩
        · unfold Cache.get
          rw [if_neg hmax0]
          simp only [hl, if_pos hfull, hev, hloop, hnb, hread]
        · rw [hnb, hread]
          exact hlook2

        · intro i
          rw [hnb, hread]
          show p' e0.slot i = view s bn i
          rw [hpv]
          show s2.dev.data (bn + 0) i = view s bn i
          rw [Nat.add_zero, hdata2 bn hbnkeys, hdata1 bn hsdata, view, hl]
        · rw [hnb, hread]
          exact cfgEq_trans (cfgEq_trans hcfg1 hcfg2) ⟨rfl, rfl, rfl, rfl, rfl, rfl⟩
    · -- cache not full: bind fresh slots and fetch
      have hlt : s.blocks.length < s.cache_max_size := by omega
      have hr0 : ¬(min s.read_ahead (s.cache_max_size - s.blocks.length) = 0) := by
        have h1 : 0 < min s.read_ahead (s.cache_max_size - s.blocks.length) :=
          lt_min hra (by omega)
        omega
      obtain ⟨r', hr'⟩ : ∃ r', min s.read_ahead (s.cache_max_size - s.blocks.length) = r' + 1 :=
        ⟨min s.read_ahead (s.cache_max_size - s.blocks.length) - 1, by omega⟩
      have hnb : (List.range (min s.read_ahead (s.cache_max_size - s.blocks.length))).map
            (fun i => ({ block_num := bn + i, dirty := false, slot := s.blocks.length + i } : Block))
          = ({ block_num := bn + 0, dirty := false, slot := s.blocks.length + 0 } : Block) ::
            ((List.range r').map
              (fun j => ({ block_num := bn + (j + 1), dirty := false,
                           slot := s.blocks.length + (j + 1) } : Block))) := by
        rw [hr', List.range_succ_eq_map, List.map_cons, List.map_map]
        rfl
      have hdisj : ∀ x ∈ (List.range r').map
          (fun j => ({ block_num := bn + (j + 1), dirty := false,
                       slot := s.blocks.length + (j + 1) } : Block)),
          x.slot ≠ ({ block_num := bn + 0, dirty := false,
                      slot := s.blocks.length + 0 } : Block).slot := by
        intro x hx
        obtain ⟨j, _, hjx⟩ := List.mem_map.mp hx
        rw [← hjx]
        show s.blocks.length + (j + 1) ≠ s.blocks.length + 0
        omega
      obtain ⟨p', hread, hpval⟩ := read_from_device_ok
        { s with blocks :=
            (({ block_num := bn + 0, dirty := false, slot := s.blocks.length + 0 } : Block) ::
              ((List.range r').map
                (fun j => ({ block_num := bn + (j + 1), dirty := false,
                             slot := s.blocks.length + (j + 1) } : Block)))).foldl setItem s.blocks }
        ({ block_num := bn + 0, dirty := false, slot := s.blocks.length + 0 } : Block)
        ((List.range r').map
          (fun j => ({ block_num := bn + (j + 1), dirty := false,
                       slot := s.blocks.length + (j + 1) } : Block)))
        (hR (bn + 0))
      have hpv := hpval hdisj
      have hlook : lookup
          ((({ block_num := bn + 0, dirty := false, slot := s.blocks.length + 0 } : Block) ::
            ((List.range r').map
              (fun j => ({ block_num := bn + (j + 1), dirty := false,
                           slot := s.blocks.length + (j + 1) } : Block)))).foldl setItem s.blocks)
          bn = some ({ block_num := bn + 0, dirty := false,
                       slot := s.blocks.length + 0 } : Block) := by
        rw [List.foldl_cons]
        rw [lookup_foldl_setItem_ne _ _ bn ?_]
        · exact lookup_setItem_self s.blocks _
        · intro x hx
          obtain ⟨j, _, hjx⟩ := List.mem_map.mp hx
          rw [← hjx]
          show bn + (j + 1) ≠ bn
          omega
      refine ⟨(Cache.read_from_device
          { s with blocks :=
              ((List.range (min s.read_ahead (s.cache_max_size - s.blocks.length))).map
                (fun i => ({ block_num := bn + i, dirty := false,
                             slot := s.blocks.length + i } : Block))).foldl setItem s.blocks }
          ((List.range (min s.read_ahead (s.cache_max_size - s.blocks.length))).map
            (fun i => ({ block_num := bn + i, dirty := false,
                         slot := s.blocks.length + i } : Block)))).2,
        ({ block_num := bn + 0, dirty := false, slot := s.blocks.length + 0 } : Block),
        ?_, ?_, ?_, ?_⟩
      · unfold Cache.get
        rw [if_neg hmax0]
        simp only [hl, if_neg hfull, if_neg hr0, hnb, hread]
        rfl
      · rw [hnb, hread]
        exact hlook
      · intro i
        rw [hnb, hread]
        show p' (s.blocks.length + 0) i = view s bn i
        rw [hpv]
        show s.dev.data (bn + 0) i = view s bn i
        rw [Nat.add_zero, view, hl]
      · rw [hnb, hread]
        exact ⟨rfl, rfl, rfl, rfl, rfl, rfl⟩

theorem writeRange_zero (dst src : Bytes) (start i : Nat) :
    writeRange dst start src 0 i = dst i := by
  rw [writeRange, if_neg (by omega)]

/-- `Cache.put` on a hit (cache enabled): copy the buffer into the
resident block's slot, mark it dirty, move it to the tail. -/
theorem put_hit_spec (s : SDState) (bn : Nat) (buf : Bytes) {b : Block}
    (hmax : ¬(s.cache_max_size = 0)) (hl : lookup s.blocks bn = some b) :
    Cache.put s bn buf =
      (none, { s with
        pool := upd s.pool b.slot buf,
        blocks := moveToEnd (updateBlock s.blocks bn (fun x => { x with dirty := true })) bn }) := by
  unfold Cache.put
  rw [if_neg hmax]
  simp only [hl]

/-- **C2** (confirmed).  On any cache state with `cache_max_size > 0` and a
card that accepts writes, `sync()` returns without error and:
the resulting index is the old one with every dirty flag cleared (so no
resident block is dirty); the card transactions issued are exactly one per
group of `groupRuns (sortByKey dirty)` — the partition of the dirty
blocks, sorted by block number, into maximal runs of consecutive block
numbers (each group is nonempty and consecutive, adjacent groups are not
contiguous, the groups concatenate back to the sorted dirty list, which is
a sorted permutation of the dirty resident blocks); and the transaction
for a run of length 1 is a single-block CMD24 write while a run of length
≥ 2 is one multi-block CMD25 (+ STOP_TRAN) write. -/
theorem c2_sync_coalesces_dirty_runs (s : SDState)
    (hmax : 0 < s.cache_max_size) (hW : ∀ t, s.dev.failWrite t = false) :
    (Cache.sync s).1 = none ∧
    (Cache.sync s).2.blocks
      = s.blocks.map (fun b => if b.dirty then { b with dirty := false } else b) ∧
    (∀ b ∈ (Cache.sync s).2.blocks, b.dirty = false) ∧
    (Cache.sync s).2.events
      = s.events ++ (groupRuns (sortByKey (s.blocks.filter (fun b => b.dirty)))).map evOf ∧
    (groupRuns (sortByKey (s.blocks.filter (fun b => b.dirty)))).flatten
      = sortByKey (s.blocks.filter (fun b => b.dirty)) ∧
    (sortByKey (s.blocks.filter (fun b => b.dirty))).Perm
      (s.blocks.filter (fun b => b.dirty)) ∧
    List.Sorted keyLE (sortByKey (s.blocks.filter (fun b => b.dirty))) ∧
    (∀ g ∈ groupRuns (sortByKey (s.blocks.filter (fun b => b.dirty))),
      List.Chain' (fun x y => y.block_num = x.block_num + 1) g ∧
      ((∃ b, g = [b] ∧ evOf g = Ev.writeSingle b.block_num) ∨
       (∃ c c1 rest, g = c :: c1 :: rest ∧ evOf g = Ev.writeMulti c.block_num g.length))) ∧
    List.Chain'
      (fun g h => ∀ x ∈ g.getLast?, ∀ y ∈ h.head?, y.block_num ≠ x.block_num + 1)
      (groupRuns (sortByKey (s.blocks.filter (fun b => b.dirty)))) := by
  obtain ⟨d', hs, -⟩ := sync_ok s hW (Nat.pos_iff_ne_zero.mp hmax)
  rw [hs]
  refine ⟨rfl, rfl, ?_, rfl, groupRuns_flatten _, ?_, ?_, ?_, groupRuns_boundary _⟩
  · intro b hb
    simp only [List.mem_map] at hb
    obtain ⟨a, _, ha⟩ := hb
    by_cases hd : a.dirty <;> simp [hd] at ha <;> rw [← ha]
    exact Bool.not_eq_true _ |>.mp hd
  · rw [sortByKey]
    exact List.perm_insertionSort keyLE _
  · rw [sortByKey]
    exact List.sorted_insertionSort keyLE _
  · intro g hg
    refine ⟨groupRuns_chain _ g hg, ?_⟩
    have hne := groupRuns_mem_ne_nil _ g hg
    cases g with
    | nil => exact absurd rfl hne
    | cons c rest =>
      cases rest with
      | nil => exact Or.inl ⟨c, rfl, rfl⟩
      | cons c1 rest' => exact Or.inr ⟨c, c1, rest', rfl, rfl⟩

/-- **C2** witness: the theorem applied to the concrete state `sCoalesce`
(dirty blocks {100, 101, 102, 200, 201}); the sync traffic is exactly one
CMD25 run of length 3 at 100 and one CMD25 run of length 2 at 200. -/
theorem c2_sync_coalesces_dirty_runs_witness :
    0 < sCoalesce.cache_max_size ∧
    (Cache.sync sCoalesce).1 = none ∧
    (∀ b ∈ (Cache.sync sCoalesce).2.blocks, b.dirty = false) ∧
    (Cache.sync sCoalesce).2.events = [Ev.writeMulti 100 3, Ev.writeMulti 200 2] :=
  ⟨by decide,
   (c2_sync_coalesces_dirty_runs sCoalesce (by decide) (fun t => rfl)).1,
   (c2_sync_coalesces_dirty_runs sCoalesce (by decide) (fun t => rfl)).2.2.1,
   by decide⟩

/-- `Cache.put` on a miss (cache enabled, working card): the block is
installed dirty with the buffer contents, in slot `|index|` when the cache
is not full (otherwise in the evicted victim's slot). -/
theorem put_miss_spec (s : SDState) (bn : Nat) (buf : Bytes)
    (hmax : 0 < s.cache_max_size) (hl : lookup s.blocks bn = none)
    (hW : ∀ t, s.dev.failWrite t = false) :
    ∃ s' slot, Cache.put s bn buf = (none, s') ∧
      lookup s'.blocks bn = some ⟨bn, true, slot⟩ ∧
      s'.pool slot = buf ∧ cfgEq s s' ∧
      (s.blocks.length ≠ s.cache_max_size → slot = s.blocks.length) := by
  have hmax0 : ¬(s.cache_max_size = 0) := by omega
  by_cases hfull : s.blocks.length = s.cache_max_size
  · obtain ⟨s1, ev, hev, hsub, hkeys1, hslots1, hpool1, hcfg1, hevs1, hdata1, hlenev⟩ :=
      block_evictor_ok s 1 hW hmax0
    have hevlen : ev.length = 1 := hlenev one_ne_zero (by omega)
    obtain ⟨b0, hb0⟩ : ∃ b0, ev = [b0] := by
      cases ev with
      | nil => simp at hevlen
      | cons b0 brest =>
        cases brest with
        | nil => exact ⟨b0, rfl⟩
        | cons b1 brest' => simp at hevlen
    subst hb0
    have hW1 : ∀ t, s1.dev.failWrite t = false := by
      intro t
      rw [hcfg1.2.2.2.2.2]
      exact hW t
    by_cases hd : b0.dirty = true
    · have hwr := write_to_device_single s1 b0 (hW1 b0.block_num)
      refine ⟨{ { s1 with
            dev := { s1.dev with data := upd s1.dev.data b0.block_num (s1.pool b0.slot) },
            events := s1.events ++ [Ev.writeSingle b0.block_num] } with
          blocks := setItem (eraseKey s1.blocks b0.block_num) ⟨bn, true, b0.slot⟩,
          pool := upd s1.pool b0.slot buf },
        b0.slot, ?_, ?_, upd_self _ _ _, ?_, fun h => absurd hfull h⟩
      · unfold Cache.put
        rw [if_neg hmax0]
        simp only [hl, if_pos hfull, hev, if_pos hd, hwr]
      · exact lookup_setItem_self _ _
      · exact cfgEq_trans hcfg1 ⟨rfl, rfl, rfl, rfl, rfl, rfl⟩
    · refine ⟨{ s1 with
          blocks := setItem (eraseKey s1.blocks b0.block_num) ⟨bn, true, b0.slot⟩,
          pool := upd s1.pool b0.slot buf },
        b0.slot, ?_, ?_, upd_self _ _ _, ?_, fun h => absurd hfull h⟩
      · unfold Cache.put
        rw [if_neg hmax0]
        simp only [hl, if_pos hfull, hev, if_neg hd]
      · exact lookup_setItem_self _ _
      · exact cfgEq_trans hcfg1 ⟨rfl, rfl, rfl, rfl, rfl, rfl⟩
  · refine ⟨{ s with
        blocks := setItem s.blocks ⟨bn, true, s.blocks.length⟩,
        pool := upd s.pool s.blocks.length buf },
      s.blocks.length, ?_, ?_, upd_self _ _ _, ⟨rfl, rfl, rfl, rfl, rfl, rfl⟩, fun _ => rfl⟩
    · unfold Cache.put
      rw [if_neg hmax0]
      simp only [hl, if_neg hfull]
    · exact lookup_setItem_self _ _

/-- **C4** (corrected/amended).  Erase semantics of `ioctl(6, n)` on a
cache-enabled configuration: a resident dirty block raises `EraseDirty`
with no state mutation; a resident clean block becomes dirty and all
`0xFF` in place; an absent block (working card, `cache_max_size > 0`)
becomes resident, dirty, and all `0xFF`. -/
theorem c4_amended_erase_semantics :
    (∀ (s : SDState) (n : Nat) (b : Block),
      lookup s.blocks n = some b → b.dirty = true →
      SDCard.ioctl s 6 n = (some .eraseDirty, s, 0)) ∧
    (∀ (s : SDState) (n : Nat) (b : Block),
      lookup s.blocks n = some b → b.dirty = false →
      ∃ s', SDCard.ioctl s 6 n = (none, s', 0) ∧
        lookup s'.blocks n = some ⟨n, true, b.slot⟩ ∧
        (∀ i, i < 512 → s'.pool b.slot i = 0xFF)) ∧
    (∀ (s : SDState) (n : Nat),
      0 < s.cache_max_size → lookup s.blocks n = none →
      (∀ t, s.dev.failWrite t = false) →
      ∃ s' blk, SDCard.ioctl s 6 n = (none, s', 0) ∧
        lookup s'.blocks n = some blk ∧ blk.dirty = true ∧
        (∀ i, i < 512 → s'.pool blk.slot i = 0xFF)) := by
  refine ⟨?_, ?_, ?_⟩
  · intro s n b hl hd
    unfold SDCard.ioctl
    rw [if_neg (by omega), if_neg (by omega), if_neg (by omega), if_pos rfl]
    simp only [hl, if_pos hd]
  · intro s n b hl hd
    have hkey : b.block_num = n := lookup_key_eq hl
    refine ⟨{ s with
        pool := upd s.pool b.slot allFF,
        blocks := updateBlock s.blocks n (fun x => { x with dirty := true }) }, ?_, ?_, ?_⟩
    · unfold SDCard.ioctl
      rw [if_neg (by omega), if_neg (by omega), if_neg (by omega), if_pos rfl]
      simp only [hl, hd]
      rfl
    · have hblk : ({ b with dirty := true } : Block) = ⟨n, true, b.slot⟩ := by
        rw [hkey]
      show lookup (updateBlock s.blocks n (fun x => { x with dirty := true })) n = _
      rw [lookup_updateBlock s.blocks n (fun x => { x with dirty := true }) (fun x => rfl), hl,
        Option.map_some', hblk]
    · intro i _
      show upd s.pool b.slot allFF b.slot i = 0xFF
      rw [upd_self]
      rfl
  · intro s n hmax hl hW
    obtain ⟨s', slot, hput, hlook, hpool, hcfg, -⟩ := put_miss_spec s n allFF hmax hl hW
    refine ⟨s', ⟨n, true, slot⟩, ?_, hlook, rfl, ?_⟩
    · unfold SDCard.ioctl
      rw [if_neg (by omega), if_neg (by omega), if_neg (by omega), if_pos rfl]
      simp only [hl, hput]
    · intro i _
      show s'.pool slot i = 0xFF
      rw [hpool]
      rfl

/-- **C4** witness: the three clauses applied at `sDirty` (resident dirty
block 7), `sFullRA1` (resident clean block 5), and `sRA2` (absent
block 3). -/
theorem c4_amended_erase_semantics_witness :
    (lookup sDirty.blocks 7 = some ⟨7, true, 0⟩ ∧
      SDCard.ioctl sDirty 6 7 = (some .eraseDirty, sDirty, 0)) ∧
    (lookup sFullRA1.blocks 5 = some ⟨5, false, 0⟩ ∧
      ∃ s', SDCard.ioctl sFullRA1 6 5 = (none, s', 0) ∧
        lookup s'.blocks 5 = some ⟨5, true, 0⟩ ∧
        (∀ i, i < 512 → s'.pool 0 i = 0xFF)) ∧
    (0 < sRA2.cache_max_size ∧
      ∃ s' blk, SDCard.ioctl sRA2 6 3 = (none, s', 0) ∧
        lookup s'.blocks 3 = some blk ∧ blk.dirty = true ∧
        (∀ i, i < 512 → s'.pool blk.slot i = 0xFF)) :=
  ⟨⟨by decide, c4_amended_erase_semantics.1 sDirty 7 ⟨7, true, 0⟩ (by decide) rfl⟩,
   ⟨by decide, c4_amended_erase_semantics.2.1 sFullRA1 5 ⟨5, false, 0⟩ (by decide) rfl⟩,
   ⟨by decide, c4_amended_erase_semantics.2.2 sRA2 3 (by decide) (by decide) (fun _ => rfl)⟩⟩

/-- **C5** (corrected/amended).  No range check against `sectors`: an
aligned whole-block `writeblocks(b, buf, 0)` with `b ≥ sectors` on a
not-full cache-enabled state succeeds and inserts block `b` (dirty, in the
next free slot) into the cache index. -/
theorem c5_amended_no_range_check (s : SDState) (b : Nat) (buf : Bytes)
    (hmax : 0 < s.cache_max_size) (hnf : s.blocks.length < s.cache_max_size)
    (hmiss : lookup s.blocks b = none) (hrange : s.sectors ≤ b) :
    SDCard.writeblocks s b 512 buf 0 =
      (none, { s with blocks := setItem s.blocks ⟨b, true, s.blocks.length⟩,
                      pool := upd s.pool s.blocks.length buf }) ∧
    lookup (setItem s.blocks ⟨b, true, s.blocks.length⟩) b
      = some ⟨b, true, s.blocks.length⟩ := by
  constructor
  · have hmax0 : ¬(s.cache_max_size = 0) := by omega
    have hfull : ¬(s.blocks.length = s.cache_max_size) := by omega
    have hmiss' : lookup s.blocks (b + 0 / 512) = none := hmiss
    unfold SDCard.writeblocks
    rw [if_pos (by decide), if_pos (by decide)]
    unfold Cache.put
    rw [if_neg hmax0]
    simp only [hmiss', if_neg hfull]
    rfl
  · exact lookup_setItem_self s.blocks ⟨b, true, s.blocks.length⟩

/-- **C5** witness: writing block 200 on `sRA2` (100 sectors). -/
theorem c5_amended_no_range_check_witness :
    sRA2.sectors ≤ 200 ∧
    SDCard.writeblocks sRA2 200 512 buf7 0 =
      (none, { sRA2 with blocks := setItem sRA2.blocks ⟨200, true, sRA2.blocks.length⟩,
                         pool := upd sRA2.pool sRA2.blocks.length buf7 }) ∧
    lookup (setItem sRA2.blocks ⟨200, true, sRA2.blocks.length⟩) 200
      = some ⟨200, true, sRA2.blocks.length⟩ :=
  ⟨by decide,
   c5_amended_no_range_check sRA2 200 buf7 (by decide) (by decide) (by decide) (by decide)⟩

/-- **C7** (corrected/amended).  On a `get` miss with a full cache
(working card, `0 < read_ahead ≤ cache_max_size`): the effective
read-ahead `ra'` is 1 when any of `block_num .. block_num+read_ahead-1` is
resident and `read_ahead` otherwise; exactly `ra'` blocks are selected for
eviction, and the fetch is one single-block CMD17 when `ra' = 1` and one
multi-block CMD18 of `ra'` blocks when `ra' ≥ 2` (so with
`read_ahead = 1` the no-collision fetch is CMD17, not CMD18); besides the
fetch, only write traffic (victim flushes) is emitted. -/
theorem c7_amended_readahead_collision (s : SDState) (bn : Nat) (buf : Bytes)
    (hmax : 0 < s.cache_max_size)
    (hfull : s.blocks.length = s.cache_max_size)
    (hmiss : lookup s.blocks bn = none)
    (hra : 0 < s.read_ahead) (hra2 : s.read_ahead ≤ s.cache_max_size)
    (hR : ∀ t, s.dev.failRead t = false) (hW : ∀ t, s.dev.failWrite t = false) :
    ∃ ra' s' out w,
      ra' = (if ((List.range' bn s.read_ahead).any fun k => resident s.blocks k) = true
             then 1 else s.read_ahead) ∧
      Cache.get s bn buf = (none, s', out) ∧
      (Cache.block_evictor s ra').2.2.length = ra' ∧
      s'.events = s.events ++ w ++
        [(if ra' = 1 then Ev.readSingle bn else Ev.readMulti bn ra')] ∧
      (∀ e ∈ w, e.isWrite = true) := by
  have hmax0 : ¬(s.cache_max_size = 0) := by omega
  have hsdata : ∀ x ∈ s.blocks, x.block_num ≠ bn := lookup_eq_none_iff.mp hmiss
  obtain ⟨s1, ev, hev, hsub, hkeys1, hslots1, hpool1, hcfg1,
    ⟨evs1, hevs1, hevs1W⟩, hdata1, hlenev⟩ :=
    block_evictor_ok s
      (if ((List.range' bn s.read_ahead).any fun k => resident s.blocks k) = true
       then 1 else s.read_ahead) hW hmax0
  have hRA0 : (if ((List.range' bn s.read_ahead).any fun k => resident s.blocks k) = true
      then 1 else s.read_ahead) ≠ 0 := by
    by_cases h : ((List.range' bn s.read_ahead).any fun k => resident s.blocks k) = true
    · rw [if_pos h]; omega
    · rw [if_neg h]; omega
  have hRAle : (if ((List.range' bn s.read_ahead).any fun k => resident s.blocks k) = true
      then 1 else s.read_ahead) ≤ s.blocks.length := by
    by_cases h : ((List.range' bn s.read_ahead).any fun k => resident s.blocks k) = true
    · rw [if_pos h]; omega
    · rw [if_neg h]; omega
  have hevlen := hlenev hRA0 hRAle
  cases ev with
  | nil => rw [List.length_nil] at hevlen; exact absurd hevlen.symm hRA0
  | cons e0 erest =>
    have hbnkeys : ∀ x ∈ e0 :: erest, x.block_num ≠ bn := by
      intro x hx
      have hxmem : x ∈ s1.blocks := hsub.subset hx
      have hxk : x.block_num ∈ s1.blocks.map (fun b => b.block_num) :=
        List.mem_map_of_mem _ hxmem
      rw [hkeys1] at hxk
      obtain ⟨y, hy, hyk⟩ := List.mem_map.mp hxk
      rw [← hyk]
      exact hsdata y hy
    have hW1 : ∀ t, s1.dev.failWrite t = false := by
      intro t
      rw [hcfg1.2.2.2.2.2]
      exact hW t
    obtain ⟨s2, hloop, hpool2, hcfg2, ⟨evs2, hevs2, hevs2W⟩, hdata2, hlook2⟩ :=
      evictLoop_start bn e0 erest s1 hW1 hbnkeys
    have hnb : ((e0 :: erest).enum.map
          (fun p => ({ block_num := bn + p.1, dirty := false, slot := p.2.slot } : Block)))
        = ({ block_num := bn + 0, dirty := false, slot := e0.slot } : Block) ::
          ((List.enumFrom 1 erest).map
            (fun p => ({ block_num := bn + p.1, dirty := false, slot := p.2.slot } : Block))) := by
      rw [List.enum_cons, List.map_cons]
    have hR2 : ∀ t, s2.dev.failRead t = false := by
      intro t
      rw [(cfgEq_trans hcfg1 hcfg2).2.2.2.2.1]
      exact hR t
    obtain ⟨p', hread, -⟩ := read_from_device_ok s2
      ({ block_num := bn + 0, dirty := false, slot := e0.slot } : Block)
      ((List.enumFrom 1 erest).map
        (fun p => ({ block_num := bn + p.1, dirty := false, slot := p.2.slot } : Block)))
      (hR2 (bn + 0))
    have hE : (if (((List.enumFrom 1 erest).map
          (fun p => ({ block_num := bn + p.1, dirty := false, slot := p.2.slot } : Block))).isEmpty)
        then Ev.readSingle ({ block_num := bn + 0, dirty := false, slot := e0.slot } : Block).block_num
        else Ev.readMulti ({ block_num := bn + 0, dirty := false, slot := e0.slot } : Block).block_num
          (({ block_num := bn + 0, dirty := false, slot := e0.slot } : Block) ::
            ((List.enumFrom 1 erest).map
              (fun p => ({ block_num := bn + p.1, dirty := false, slot := p.2.slot } : Block)))).length)
        = (if (e0 :: erest).length = 1 then Ev.readSingle bn
           else Ev.readMulti bn (e0 :: erest).length) := by
      cases erest with
      | nil => simp
      | cons x xs =>
        rw [if_neg (by simp [List.enumFrom]), if_neg (by simp)]
        simp [List.enumFrom_length, Nat.add_comm]
    refine ⟨(e0 :: erest).length, (Cache.read_from_device s2 ((e0 :: erest).enum.map
        (fun p => ({ block_num := bn + p.1, dirty := false, slot := p.2.slot } : Block)))).2,
      (Cache.read_from_device s2 ((e0 :: erest).enum.map
        (fun p => ({ block_num := bn + p.1, dirty := false, slot := p.2.slot } : Block)))).2.pool e0.slot,
      evs1 ++ evs2, hevlen, ?_, ?_, ?_, ?_⟩
    · unfold Cache.get
      rw [if_neg hmax0]
      simp only [hmiss, if_pos hfull, hev, hloop, hnb, hread]
    · rw [hevlen, hev]
      exact hevlen
    · rw [hnb, hread]
      show s2.events ++ [_] = _
      rw [hevs2, hevs1, hE]
      simp [List.append_assoc]
    · intro e he
      rcases List.mem_append.mp he with h | h
      · exact hevs1W e h
      · exact hevs2W e h

/-- **C7** witness: the theorem applied on `sFullRA2` (full cache of
clean blocks 5 and 6, `read_ahead = 2`, miss on 9, no collision): two
blocks are evicted and one CMD18 of length 2 at block 9 is issued. -/
theorem c7_amended_readahead_collision_witness :
    0 < sFullRA2.cache_max_size ∧ sFullRA2.blocks.length = sFullRA2.cache_max_size ∧
    (∃ ra' s' out w,
      ra' = (if ((List.range' 9 sFullRA2.read_ahead).any
             fun k => resident sFullRA2.blocks k) = true then 1 else sFullRA2.read_ahead) ∧
      Cache.get sFullRA2 9 (fun _ => 0) = (none, s', out) ∧
      (Cache.block_evictor sFullRA2 ra').2.2.length = ra' ∧
      s'.events = sFullRA2.events ++ w ++
        [(if ra' = 1 then Ev.readSingle 9 else Ev.readMulti 9 ra')] ∧
      (∀ e ∈ w, e.isWrite = true)) :=
  ⟨by decide, by decide,
   c7_amended_readahead_collision sFullRA2 9 (fun _ => 0) (by decide) (by decide)
     (by decide) (by decide) (by decide) (fun _ => rfl) (fun _ => rfl)⟩

theorem lookup_of_mem_nodup :
    ∀ (bs : List Block), (bs.map (fun x => x.block_num)).Nodup →
      ∀ x ∈ bs, lookup bs x.block_num = some x := by
  intro bs
  induction bs with
  | nil => intro _ x hx; simp at hx
  | cons y ys ih =>
    intro hnodup x hx
    rw [List.map_cons, List.nodup_cons] at hnodup
    rcases List.mem_cons.mp hx with h | h
    · rw [h, lookup_cons, if_pos rfl]
    · rw [lookup_cons, if_neg, ih hnodup.2 x h]
      intro hc
      exact hnodup.1 (hc ▸ List.mem_map_of_mem _ h)

theorem read_from_device_blocks (s : SDState) (bl : List Block) :
    ((Cache.read_from_device s bl).2).blocks = s.blocks := by
  match bl with
  | [] => rfl
  | [b] =>
    rw [Cache.read_from_device]
    split <;> rfl
  | b0 :: b1 :: rest =>
    rw [Cache.read_from_device]
    split <;> rfl

/-- When every card write fails, the eviction loop preserves the binding
of every dirty victim: the first dirty victim's flush raises before any of
its state is touched, and the victims after it are unreached. -/
theorem evictLoopAllFail (bn : Nat) :
    ∀ (l : List Block) (i : Nat) (s : SDState),
      (∀ t, s.dev.failWrite t = true) →
      (l.map (fun x => x.block_num)).Nodup →
      (∀ x ∈ l, x.dirty = true → lookup s.blocks x.block_num = some x) →
      (∀ x ∈ l, x.dirty = true → ∀ j, i ≤ j → j < i + l.length → x.block_num ≠ bn + j) →
      ∀ x ∈ l, x.dirty = true →
        lookup ((evictLoop bn i l s).2).blocks x.block_num = some x := by
  intro l
  induction l with
  | nil => intro i s _ _ _ _ x hx; simp at hx
  | cons b rest ih =>
    intro i s hWall hnodup hres hnew x hx hxd
    by_cases hd : b.dirty = true
    · rw [evictLoop, if_pos hd, write_to_device_fail s b [] (hWall b.block_num)]
      exact hres x hx hxd
    · rcases List.mem_cons.mp hx with h | h
      · rw [h] at hxd
        exact absurd hxd hd
      · have hd' : b.dirty = false := by
          cases hb : b.dirty
          · rfl
          · exact absurd hb hd
        rw [evictLoop, if_neg (by simp [hd'])]
        rw [List.map_cons, List.nodup_cons] at hnodup
        refine ih (i + 1)
          { s with blocks := setItem (eraseKey s.blocks b.block_num) ⟨bn + i, false, b.slot⟩ }
          (fun t => hWall t) hnodup.2 ?_ ?_ x h hxd
        · intro y hy hyd
          show lookup (setItem (eraseKey s.blocks b.block_num) ⟨bn + i, false, b.slot⟩)
            y.block_num = some y
          rw [lookup_setItem_ne _ _ ?_, lookup_eraseKey_ne _ ?_]
          · exact hres y (List.mem_cons_of_mem _ hy) hyd
          · intro hc
            exact hnodup.1 (hc ▸ List.mem_map_of_mem _ hy)
          · show y.block_num ≠ bn + i
            exact hnew y (List.mem_cons_of_mem _ hy) hyd i (Nat.le_refl i)
              (by simp only [List.length_cons]; omega)
        · intro y hy hyd j hj1 hj2
          exact hnew y (List.mem_cons_of_mem _ hy) hyd j (by omega)
            (by simp only [List.length_cons] at hj2 ⊢; omega)

/-- **C3** (corrected/amended).  Dirty-state after an IO error:
(i) a direct eviction flush from `put` (LRU, full cache, dirty victim,
failing card) raises `OSError(5)` with the state completely unchanged, so
the victim is still resident and dirty;
(ii) a direct eviction flush from `get` (LRU, full cache, failing card)
leaves every dirty victim still bound in the resulting state;
(iii) an IO error during `sync` instead occurs after every dirty flag has
been cleared: `sync` raises but no resident block is dirty afterwards, so
a later `sync` will not retry the lost writes. -/
theorem c3_amended_io_error_dirty_state :
    (∀ (s : SDState) (bn : Nat) (buf : Bytes) (b0 : Block) (rest : List Block),
      s.policy = Policy.LRU → 0 < s.cache_max_size →
      s.blocks = b0 :: rest → s.blocks.length = s.cache_max_size →
      lookup s.blocks bn = none → b0.dirty = true →
      s.dev.failWrite b0.block_num = true →
      Cache.put s bn buf = (some .ioError, s)) ∧
    (∀ (s : SDState) (bn : Nat) (buf : Bytes),
      s.policy = Policy.LRU → 0 < s.cache_max_size →
      s.blocks.length = s.cache_max_size → lookup s.blocks bn = none →
      (s.blocks.map (fun x => x.block_num)).Nodup →
      (∀ t, s.dev.failWrite t = true) →
      ∀ x ∈ s.blocks.take (if ((List.range' bn s.read_ahead).any
          fun k => resident s.blocks k) = true then 1 else s.read_ahead),
        x.dirty = true →
        lookup ((Cache.get s bn buf).2.1).blocks x.block_num = some x) ∧
    (∀ s : SDState, 0 < s.cache_max_size →
      (∀ t, s.dev.failWrite t = true) →
      (∃ x ∈ s.blocks, x.dirty = true) →
      (Cache.sync s).1 = some .ioError ∧
      ∀ x ∈ (Cache.sync s).2.blocks, x.dirty = false) := by
  refine ⟨?_, ?_, ?_⟩
  · intro s bn buf b0 rest hpol hmax hblocks hfull hl hd hWb
    have hmax0 : ¬(s.cache_max_size = 0) := by omega
    have hev : Cache.block_evictor s 1 = (none, s, [b0]) := by
      unfold Cache.block_evictor
      rw [hpol, hblocks]
      rfl
    unfold Cache.put
    rw [if_neg hmax0]
    simp only [hl, if_pos hfull, hev, if_pos hd,
      write_to_device_fail s b0 [] hWb]
  · intro s bn buf hpol hmax hfull hl hnodup hWall
    have hmax0 : ¬(s.cache_max_size = 0) := by omega
    have hsdata : ∀ x ∈ s.blocks, x.block_num ≠ bn := lookup_eq_none_iff.mp hl
    have hev : Cache.block_evictor s
        (if ((List.range' bn s.read_ahead).any fun k => resident s.blocks k) = true
         then 1 else s.read_ahead)
        = (none, s, s.blocks.take (if ((List.range' bn s.read_ahead).any
            fun k => resident s.blocks k) = true then 1 else s.read_ahead)) := by
      unfold Cache.block_evictor
      rw [hpol]
    have hnotin : ∀ x ∈ s.blocks, x.dirty = true → ∀ j, 0 ≤ j →
        j < 0 + (s.blocks.take (if ((List.range' bn s.read_ahead).any
          fun k => resident s.blocks k) = true then 1 else s.read_ahead)).length →
        x.block_num ≠ bn + j := by
      intro x hx _ j _ hj2
      by_cases hcol : ((List.range' bn s.read_ahead).any fun k => resident s.blocks k) = true
      · rw [if_pos hcol] at hj2
        have hj0 : j = 0 := by
          rw [List.length_take] at hj2
          omega
        rw [hj0, Nat.add_zero]
        exact hsdata x hx
      · rw [if_neg hcol] at hj2
        have hjra : j < s.read_ahead := by
          rw [List.length_take] at hj2
          omega
        have hres : resident s.blocks (bn + j) = false := by
          cases hr : resident s.blocks (bn + j)
          · rfl
          · exact absurd (List.any_eq_true.mpr
              ⟨bn + j, List.mem_range'_1.mpr ⟨by omega, by omega⟩, hr⟩) hcol
        have hnone : lookup s.blocks (bn + j) = none := by
          rw [resident] at hres
          cases hlu : lookup s.blocks (bn + j)
          · rfl
          · rw [hlu] at hres
            simp at hres
        exact lookup_eq_none_iff.mp hnone x hx
    cases hevicted : s.blocks.take (if ((List.range' bn s.read_ahead).any
        fun k => resident s.blocks k) = true then 1 else s.read_ahead) with
    | nil => intro x hx; simp at hx
    | cons e0 erest =>
      intro x hx hxd
      have hxs : x ∈ s.blocks := (hevicted ▸ List.take_sublist _ _).subset hx
      have hloopfacts := evictLoopAllFail bn (e0 :: erest) 0 s hWall
        (by
          have : ((e0 :: erest).map (fun x => x.block_num)).Sublist
              (s.blocks.map (fun x => x.block_num)) :=
            (hevicted ▸ List.take_sublist _ _).map _
          exact List.Nodup.sublist this hnodup)
        (fun y hy _ => lookup_of_mem_nodup s.blocks hnodup y
          ((hevicted ▸ List.take_sublist _ _).subset hy))
        (by
          intro y hy hyd j hj1 hj2
          refine hnotin y ((hevicted ▸ List.take_sublist _ _).subset hy) hyd j hj1 ?_
          rw [hevicted]
          omega)
        x hx hxd
      rcases hloopres : evictLoop bn 0 (e0 :: erest) s with ⟨err2, s2⟩
      rw [hloopres] at hloopfacts
      have hget : ((Cache.get s bn buf).2.1).blocks = s2.blocks := by
        unfold Cache.get
        rw [if_neg hmax0]
        simp only [hl, if_pos hfull, hev, hevicted, hloopres]
        cases err2 with
        | some e => rfl
        | none =>
          rcases hreadres : Cache.read_from_device s2 ((e0 :: erest).enum.map
            (fun p => ({ block_num := bn + p.1, dirty := false, slot := p.2.slot } : Block)))
            with ⟨err3, s3⟩
          have hs3 : s3.blocks = s2.blocks := by
            have := read_from_device_blocks s2 ((e0 :: erest).enum.map
              (fun p => ({ block_num := bn + p.1, dirty := false, slot := p.2.slot } : Block)))
            rw [hreadres] at this
            exact this
          simp only [hreadres]
          cases err3 <;> exact hs3
      rw [hget]
      exact hloopfacts
  · intro s hmax hWall ⟨x0, hx0, hx0d⟩
    have hmax0 : ¬(s.cache_max_size = 0) := by omega
    have hfilter : x0 ∈ s.blocks.filter (fun b => b.dirty) :=
      List.mem_filter.mpr ⟨hx0, hx0d⟩
    have hsorted : x0 ∈ sortByKey (s.blocks.filter (fun b => b.dirty)) := by
      rw [sortByKey]
      exact (List.perm_insertionSort keyLE _).mem_iff.mpr hfilter
    have hne : ¬((sortByKey (s.blocks.filter (fun b => b.dirty))).isEmpty = true) := by
      intro hc
      rw [List.isEmpty_iff.mp hc] at hsorted
      simp at hsorted
    obtain ⟨c, crest, hcr⟩ : ∃ c crest,
        sortByKey (s.blocks.filter (fun b => b.dirty)) = c :: crest := by
      cases hsk : sortByKey (s.blocks.filter (fun b => b.dirty)) with
      | nil => rw [hsk] at hsorted; simp at hsorted
      | cons c crest => exact ⟨c, crest, rfl⟩
    obtain ⟨t', gs', hgr⟩ := groupRuns_head crest c
    have hsync : Cache.sync s = (some .ioError,
        { s with blocks :=
            s.blocks.map (fun b => if b.dirty then { b with dirty := false } else b) }) := by
      unfold Cache.sync
      rw [if_neg hmax0, if_neg hne, hcr, hgr]
      rw [writeGroups]
      rw [write_to_device_fail
        { s with blocks :=
            s.blocks.map (fun b => if b.dirty then { b with dirty := false } else b) }
        c t' (hWall c.block_num)]
    rw [hsync]
    refine ⟨rfl, ?_⟩
    intro x hx
    simp only [List.mem_map] at hx
    obtain ⟨a, _, ha⟩ := hx
    by_cases hd : a.dirty <;> simp [hd] at ha <;> rw [← ha]
    exact Bool.not_eq_true _ |>.mp hd

/-- **C3** witness: the three clauses at `sFullDirtyFailW` (full one-block
LRU cache with dirty block 7, card rejecting all writes): `put(9)` raises
with the state unchanged, `get(9)`'s failed eviction flush leaves block 7
bound and dirty, and `sync` raises with block 7 left clean. -/
theorem c3_amended_io_error_dirty_state_witness :
    Cache.put sFullDirtyFailW 9 buf7 = (some .ioError, sFullDirtyFailW) ∧
    (∀ x ∈ sFullDirtyFailW.blocks.take (if ((List.range' 9 sFullDirtyFailW.read_ahead).any
        fun k => resident sFullDirtyFailW.blocks k) = true then 1
        else sFullDirtyFailW.read_ahead),
      x.dirty = true →
      lookup ((Cache.get sFullDirtyFailW 9 buf7).2.1).blocks x.block_num = some x) ∧
    ((Cache.sync sFullDirtyFailW).1 = some .ioError ∧
      ∀ x ∈ (Cache.sync sFullDirtyFailW).2.blocks, x.dirty = false) :=
  ⟨c3_amended_io_error_dirty_state.1 sFullDirtyFailW 9 buf7 ⟨7, true, 0⟩ [] rfl
     (by decide) rfl (by decide) (by decide) rfl rfl,
   c3_amended_io_error_dirty_state.2.1 sFullDirtyFailW 9 buf7 rfl (by decide)
     (by decide) (by decide) (by decide) (fun _ => rfl),
   c3_amended_io_error_dirty_state.2.2 sFullDirtyFailW (by decide) (fun _ => rfl)
     (by decide)⟩

/-- `Cache.put` on an empty index of a cache-enabled configuration: the
miss/not-full branch binds the block to slot 0. -/
theorem put_empty_spec (s : SDState) (bn : Nat) (buf : Bytes)
    (hm : ¬ s.cache_max_size = 0) (hb : s.blocks = []) :
    Cache.put s bn buf =
      (none, { s with blocks := [⟨bn, true, 0⟩], pool := upd s.pool 0 buf }) := by
  have hl : lookup s.blocks bn = none := by rw [hb]; rfl
  have hlen : ¬(s.blocks.length = s.cache_max_size) := by
    rw [hb]; simpa using fun h => hm h.symm
  unfold Cache.put
  rw [if_neg hm]
  simp only [hl, if_neg hlen]
  rw [hb]
  rfl

/-- `Cache.sync` on an index holding exactly one dirty block: the dirty
flag is cleared and one CMD24 writes the slot contents to the card. -/
theorem sync_single_dirty_spec (s : SDState) (bn slot : Nat)
    (hm : ¬ s.cache_max_size = 0)
    (hb : s.blocks = [⟨bn, true, slot⟩])
    (hW : s.dev.failWrite bn = false) :
    Cache.sync s =
      (none, { s with
               blocks := [⟨bn, false, slot⟩],
               dev := { s.dev with data := upd s.dev.data bn (s.pool slot) },
               events := s.events ++ [Ev.writeSingle bn] }) := by
  have hd : sortByKey (s.blocks.filter (fun b => b.dirty)) = [⟨bn, true, slot⟩] := by
    rw [hb]; rfl
  have hmap : s.blocks.map (fun b => if b.dirty then { b with dirty := false } else b)
      = [⟨bn, false, slot⟩] := by
    rw [hb]; rfl
  have hw : Cache.write_to_device { s with blocks := [(⟨bn, false, slot⟩ : Block)] }
      [(⟨bn, true, slot⟩ : Block)]
      = (none, { s with
                 blocks := [(⟨bn, false, slot⟩ : Block)],
                 dev := { s.dev with data := upd s.dev.data bn (s.pool slot) },
                 events := s.events ++ [Ev.writeSingle bn] }) :=
    write_to_device_single { s with blocks := [(⟨bn, false, slot⟩ : Block)] }
      ⟨bn, true, slot⟩ hW
  unfold Cache.sync
  rw [if_neg hm]
  simp only [hd, hmap]
  rw [if_neg (by simp)]
  simp only [writeGroups, groupRuns, hw]

/-- `ioctl(6, n)` on a resident clean block: overwrite the slot with `0xFF`
in place and set the dirty flag, with no recency change. -/
theorem erase_resident_clean_spec (s : SDState) (n : Nat) (b : Block)
    (hl : lookup s.blocks n = some b) (hd : b.dirty = false) :
    SDCard.ioctl s 6 n = (none, { s with
      pool := upd s.pool b.slot allFF,
      blocks := updateBlock s.blocks n (fun x => { x with dirty := true }) }, 0) := by
  unfold SDCard.ioctl
  rw [if_neg (by omega), if_neg (by omega), if_neg (by omega), if_pos rfl]
  simp only [hl, hd]
  rfl

/-- `Cache.get` on a hit: the block is moved to the most-recent end and its
slot contents are returned; no card command is issued. -/
theorem get_hit_spec (s : SDState) (bn : Nat) (buf : Bytes) (b : Block)
    (hm : ¬ s.cache_max_size = 0) (hl : lookup s.blocks bn = some b) :
    Cache.get s bn buf =
      (none, { s with blocks := moveToEnd s.blocks bn }, s.pool b.slot) := by
  unfold Cache.get
  rw [if_neg hm]
  simp only [hl]

/-- **C8** (corrected/amended).  With a sync between the two erases the
claimed behavior holds: starting from an empty cache-enabled state on a
working card, `ioctl(6, b); ioctl(3); ioctl(6, b)` completes without error
and a subsequent `readblocks(b, out, 0)` returns 512 bytes of `0xFF`. -/
theorem c8_amended_erase_sync_erase_reads_ff
    (s0 : SDState) (b : Nat)
    (hempty : s0.blocks = [])
    (hfW : ∀ t, s0.dev.failWrite t = false)
    (hmax : 0 < s0.cache_max_size)
    (hrange : b < s0.sectors) :
    ∃ (s1 s2 s3 s4 : SDState) (outb : Bytes),
      SDCard.ioctl s0 6 b = (none, s1, 0) ∧
      SDCard.ioctl s1 3 0 = (none, s2, 0) ∧
      SDCard.ioctl s2 6 b = (none, s3, 0) ∧
      SDCard.readblocks s3 b 512 (fun _ => 0) 0 = (none, s4, outb) ∧
      (∀ i, i < 512 → outb i = 0xFF) := by
  have hm : ¬ (s0.cache_max_size = 0) := by omega
  have hl0 : lookup s0.blocks b = none := by rw [hempty]; rfl
  have hput1 : Cache.put s0 b allFF
      = (none, { s0 with blocks := [⟨b, true, 0⟩], pool := upd s0.pool 0 allFF }) :=
    put_empty_spec s0 b allFF hm hempty
  have he1 : SDCard.ioctl s0 6 b
      = (none, { s0 with blocks := [⟨b, true, 0⟩], pool := upd s0.pool 0 allFF }, 0) := by
    unfold SDCard.ioctl
    rw [if_neg (by omega), if_neg (by omega), if_neg (by omega), if_pos rfl]
    simp only [hl0, hput1]
  have hsync : Cache.sync { s0 with blocks := [⟨b, true, 0⟩], pool := upd s0.pool 0 allFF }
      = (none, { s0 with
                 blocks := [⟨b, false, 0⟩],
                 pool := upd s0.pool 0 allFF,
                 dev := { s0.dev with data := upd s0.dev.data b allFF },
                 events := s0.events ++ [Ev.writeSingle b] }) :=
    sync_single_dirty_spec _ b 0 hm rfl (hfW b)
  have he2 : SDCard.ioctl
      { s0 with blocks := [⟨b, true, 0⟩], pool := upd s0.pool 0 allFF } 3 0
      = (none, { s0 with
                 blocks := [⟨b, false, 0⟩],
                 pool := upd s0.pool 0 allFF,
                 dev := { s0.dev with data := upd s0.dev.data b allFF },
                 events := s0.events ++ [Ev.writeSingle b] }, 0) := by
    unfold SDCard.ioctl
    rw [if_pos rfl]
    simp only [hsync]
  have hl2 : lookup ({ s0 with
        blocks := [⟨b, false, 0⟩],
        pool := upd s0.pool 0 allFF,
        dev := { s0.dev with data := upd s0.dev.data b allFF },
        events := s0.events ++ [Ev.writeSingle b] } : SDState).blocks b
      = some ⟨b, false, 0⟩ := by
    show lookup [⟨b, false, 0⟩] b = _
    rw [lookup_cons, if_pos rfl]
  have hub : updateBlock [(⟨b, false, 0⟩ : Block)] b (fun x => { x with dirty := true })
      = [⟨b, true, 0⟩] := by
    simp [updateBlock]
  have he3 : SDCard.ioctl
      { s0 with
        blocks := [⟨b, false, 0⟩],
        pool := upd s0.pool 0 allFF,
        dev := { s0.dev with data := upd s0.dev.data b allFF },
        events := s0.events ++ [Ev.writeSingle b] } 6 b
      = (none, { s0 with
                 blocks := [⟨b, true, 0⟩],
                 pool := upd (upd s0.pool 0 allFF) 0 allFF,
                 dev := { s0.dev with data := upd s0.dev.data b allFF },
                 events := s0.events ++ [Ev.writeSingle b] }, 0) := by
    rw [erase_resident_clean_spec _ b ⟨b, false, 0⟩ hl2 rfl]
    simp only [hub]
  have hl3 : lookup ({ s0 with
        blocks := [⟨b, true, 0⟩],
        pool := upd (upd s0.pool 0 allFF) 0 allFF,
        dev := { s0.dev with data := upd s0.dev.data b allFF },
        events := s0.events ++ [Ev.writeSingle b] } : SDState).blocks b
      = some ⟨b, true, 0⟩ := by
    show lookup [⟨b, true, 0⟩] b = _
    rw [lookup_cons, if_pos rfl]
  have hget := get_hit_spec
    { s0 with
      blocks := [⟨b, true, 0⟩],
      pool := upd (upd s0.pool 0 allFF) 0 allFF,
      dev := { s0.dev with data := upd s0.dev.data b allFF },
      events := s0.events ++ [Ev.writeSingle b] } b (fun _ => 0) ⟨b, true, 0⟩ hm hl3
  have he4 : SDCard.readblocks
      { s0 with
        blocks := [⟨b, true, 0⟩],
        pool := upd (upd s0.pool 0 allFF) 0 allFF,
        dev := { s0.dev with data := upd s0.dev.data b allFF },
        events := s0.events ++ [Ev.writeSingle b] } b 512 (fun _ => 0) 0
      = (none, { s0 with
                 blocks := moveToEnd [⟨b, true, 0⟩] b,
                 pool := upd (upd s0.pool 0 allFF) 0 allFF,
                 dev := { s0.dev with data := upd s0.dev.data b allFF },
                 events := s0.events ++ [Ev.writeSingle b] },
        writeRange (fun _ => 0) 0
          (window (upd (upd s0.pool 0 allFF) 0 allFF 0) 0) 512) := by
    show (match Cache.get
        { s0 with
          blocks := [⟨b, true, 0⟩],
          pool := upd (upd s0.pool 0 allFF) 0 allFF,
          dev := { s0.dev with data := upd s0.dev.data b allFF },
          events := s0.events ++ [Ev.writeSingle b] } b (fun _ => 0) with
      | (some e, s', _) => (some e, s', (fun _ => 0 : Bytes))
      | (none, s', t) =>
        (none, s', writeRange (fun _ => 0 : Bytes) 0 (window t (0 % 512)) 512)) = _
    rw [hget]
  refine ⟨_, _, _, _, _, he1, he2, he3, he4, ?_⟩
  intro i hi
  show writeRange (fun _ => 0) 0 (window (upd (upd s0.pool 0 allFF) 0 allFF 0) 0) 512 i
    = 0xFF
  unfold writeRange
  rw [if_pos (⟨Nat.zero_le i, by omega⟩ : 0 ≤ i ∧ i < 0 + 512)]
  rfl

/-- **C8** witness: the erase-sync-erase-read sequence on block 3 of the
freshly initialised state `sRA2`. -/
theorem c8_amended_erase_sync_erase_reads_ff_witness :
    ∃ (s1 s2 s3 s4 : SDState) (outb : Bytes),
      SDCard.ioctl sRA2 6 3 = (none, s1, 0) ∧
      SDCard.ioctl s1 3 0 = (none, s2, 0) ∧
      SDCard.ioctl s2 6 3 = (none, s3, 0) ∧
      SDCard.readblocks s3 3 512 (fun _ => 0) 0 = (none, s4, outb) ∧
      (∀ i, i < 512 → outb i = 0xFF) :=
  c8_amended_erase_sync_erase_reads_ff sRA2 3 rfl (fun _ => rfl) (by decide) (by decide)

/-- **C9** (corrected/amended).  `Cache.__init__` rejects
`cache_max_size = 0, read_ahead = 1` with a configuration `ValueError`;
the bypass configuration is reachable via `reset_cache(0, policy, 1)`,
after which `get` issues a single CMD17 straight to the card and returns
the card data, `put` issues a single CMD24 writing the buffer straight to
the card, neither touches the (empty) index, and `sync` is a no-op. -/
theorem c9_amended_bypass_via_reset :
    (∀ (dev : Device) (sec : Nat) (pol : Policy),
      Cache.mkInit dev sec 0 pol 1 = .error .badConfig) ∧
    (∀ (s : SDState) (pol : Policy) (bn : Nat) (buf : Bytes),
      s.dev.failRead bn = false → s.dev.failWrite bn = false →
      Cache.get (Cache.reset_cache s 0 pol 1) bn buf
        = (none, { Cache.reset_cache s 0 pol 1 with
            events := (Cache.reset_cache s 0 pol 1).events ++ [.readSingle bn] },
           s.dev.data bn) ∧
      Cache.put (Cache.reset_cache s 0 pol 1) bn buf
        = (none, { Cache.reset_cache s 0 pol 1 with
            dev := { (Cache.reset_cache s 0 pol 1).dev with data := upd s.dev.data bn buf },
            events := (Cache.reset_cache s 0 pol 1).events ++ [.writeSingle bn] }) ∧
      Cache.sync (Cache.reset_cache s 0 pol 1) = (none, Cache.reset_cache s 0 pol 1)) := by
  constructor
  · intro dev sec pol
    rfl
  · intro s pol bn buf hRb hWb
    refine ⟨?_, ?_, ?_⟩
    · unfold Cache.get
      rw [if_pos (show (Cache.reset_cache s 0 pol 1).cache_max_size = 0 from rfl)]
      show (if s.dev.failRead bn = true then _ else _) = _
      rw [hRb, if_neg (by simp)]
      rfl
    · unfold Cache.put
      rw [if_pos (show (Cache.reset_cache s 0 pol 1).cache_max_size = 0 from rfl)]
      show (if s.dev.failWrite bn = true then _ else _) = _
      rw [hWb, if_neg (by simp)]
      rfl
    · unfold Cache.sync
      rw [if_pos (show (Cache.reset_cache s 0 pol 1).cache_max_size = 0 from rfl)]

/-- **C9** witness: the constructor rejection at `devZero` and the bypass
behavior of `reset_cache(sRA2, 0, LRU, 1)` at block 5. -/
theorem c9_amended_bypass_via_reset_witness :
    Cache.mkInit devZero 100 0 .LRU 1 = .error .badConfig ∧
    (Cache.get (Cache.reset_cache sRA2 0 .LRU 1) 5 buf7
        = (none, { Cache.reset_cache sRA2 0 .LRU 1 with
            events := (Cache.reset_cache sRA2 0 .LRU 1).events ++ [.readSingle 5] },
           sRA2.dev.data 5) ∧
      Cache.put (Cache.reset_cache sRA2 0 .LRU 1) 5 buf7
        = (none, { Cache.reset_cache sRA2 0 .LRU 1 with
            dev := { (Cache.reset_cache sRA2 0 .LRU 1).dev with
              data := upd sRA2.dev.data 5 buf7 },
            events := (Cache.reset_cache sRA2 0 .LRU 1).events ++ [.writeSingle 5] }) ∧
      Cache.sync (Cache.reset_cache sRA2 0 .LRU 1)
        = (none, Cache.reset_cache sRA2 0 .LRU 1)) :=
  ⟨c9_amended_bypass_via_reset.1 devZero 100 .LRU,
   c9_amended_bypass_via_reset.2 sRA2 .LRU 5 buf7 rfl rfl⟩

/-- **C10** (confirmed).  On any sane cache-enabled state, a
`writeblocks(b, empty buffer, off)` with `off % 512 ≠ 0` performs a
read-modify-write of the containing block `b + off / 512`: afterwards that
block is resident and dirty while its content (below 512) is exactly the
pre-call view — no byte changed — and a subsequent `sync()` succeeds and
issues a card write transaction covering that block.  By contrast, with a
512-aligned offset an empty-buffer `writeblocks` returns the state
completely unchanged. -/
theorem c10_empty_write_misaligned_rmw :
    (∀ (s : SDState) (b off : Nat) (buf0 : Bytes),
      0 < s.cache_max_size → 0 < s.read_ahead → s.read_ahead ≤ s.cache_max_size →
      s.blocks.length ≤ s.cache_max_size →
      (∀ t, s.dev.failRead t = false) → (∀ t, s.dev.failWrite t = false) →
      (s.blocks.map (fun x => x.slot)).Nodup →
      off % 512 ≠ 0 →
      ∃ s' blk, SDCard.writeblocks s b 0 buf0 off = (none, s') ∧
        lookup s'.blocks (b + off / 512) = some blk ∧ blk.dirty = true ∧
        (∀ i, i < 512 → s'.pool blk.slot i = view s (b + off / 512) i) ∧
        (Cache.sync s').1 = none ∧
        (∃ ev ∈ (Cache.sync s').2.events.drop s'.events.length,
          ev = Ev.writeSingle (b + off / 512) ∨
          ∃ st n, ev = Ev.writeMulti st n ∧ st ≤ b + off / 512 ∧ b + off / 512 < st + n)) ∧
    (∀ (s : SDState) (b off : Nat) (buf0 : Bytes), off % 512 = 0 →
      SDCard.writeblocks s b 0 buf0 off = (none, s)) := by
  constructor
  · intro s b off buf0 hmax hra hra2 hlen hR hW hslots hoff
    have h1 : (off % 512 + 0 + 511) / 512 = 1 := by omega
    obtain ⟨sg, blk, hget, hlookg, hviewg, hcfgg⟩ :=
      get_spec s (b + off / 512) (fun _ => 0) hmax hra hra2 hlen hR hW hslots
    have hmaxg : ¬(sg.cache_max_size = 0) := by
      rw [hcfgg.2.1]
      omega
    have hput := put_hit_spec sg (b + off / 512)
      (writeRange (sg.pool blk.slot) (off % 512) buf0 0) hmaxg hlookg
    have hkey : blk.block_num = b + off / 512 := lookup_key_eq hlookg
    have hweq : SDCard.writeblocks s b 0 buf0 off =
        (none, { sg with
          pool := upd sg.pool blk.slot (writeRange (sg.pool blk.slot) (off % 512) buf0 0),
          blocks := moveToEnd
            (updateBlock sg.blocks (b + off / 512) (fun x => { x with dirty := true }))
            (b + off / 512) }) := by
      unfold SDCard.writeblocks
      rw [if_pos h1, if_neg (by omega)]
      simp only [hget]
      exact hput
    have hlookF : lookup (moveToEnd
        (updateBlock sg.blocks (b + off / 512) (fun x => { x with dirty := true }))
        (b + off / 512)) (b + off / 512) = some { blk with dirty := true } := by
      rw [lookup_moveToEnd, lookup_updateBlock sg.blocks (b + off / 512)
        (fun x => { x with dirty := true }) (fun x => rfl), hlookg]
      rfl
    refine ⟨_, { blk with dirty := true }, hweq, hlookF, rfl, ?_, ?_, ?_⟩
    · intro i _
      show upd sg.pool blk.slot (writeRange (sg.pool blk.slot) (off % 512) buf0 0) blk.slot i
          = view s (b + off / 512) i
      rw [upd_self, writeRange_zero]
      exact hviewg i
    · obtain ⟨d', hsync, -⟩ := sync_ok
        { sg with
          pool := upd sg.pool blk.slot (writeRange (sg.pool blk.slot) (off % 512) buf0 0),
          blocks := moveToEnd
            (updateBlock sg.blocks (b + off / 512) (fun x => { x with dirty := true }))
            (b + off / 512) }
        (fun t => by
          show sg.dev.failWrite t = false
          rw [hcfgg.2.2.2.2.2]
          exact hW t)
        hmaxg
      rw [hsync]
    · obtain ⟨d', hsync, -⟩ := sync_ok
        { sg with
          pool := upd sg.pool blk.slot (writeRange (sg.pool blk.slot) (off % 512) buf0 0),
          blocks := moveToEnd
            (updateBlock sg.blocks (b + off / 512) (fun x => { x with dirty := true }))
            (b + off / 512) }
        (fun t => by
          show sg.dev.failWrite t = false
          rw [hcfgg.2.2.2.2.2]
          exact hW t)
        hmaxg
      rw [hsync]
      show ∃ ev ∈ (List.drop (List.length _) (_ ++ _)), _
      rw [List.drop_left]
      have hFmem : ({ blk with dirty := true } : Block) ∈ moveToEnd
          (updateBlock sg.blocks (b + off / 512) (fun x => { x with dirty := true }))
          (b + off / 512) := lookup_mem hlookF
      have hFdirty : ({ blk with dirty := true } : Block) ∈
          (moveToEnd (updateBlock sg.blocks (b + off / 512) (fun x => { x with dirty := true }))
            (b + off / 512)).filter (fun x => x.dirty) :=
        List.mem_filter.mpr ⟨hFmem, rfl⟩
      have hFsorted : ({ blk with dirty := true } : Block) ∈ sortByKey
          ((moveToEnd (updateBlock sg.blocks (b + off / 512) (fun x => { x with dirty := true }))
            (b + off / 512)).filter (fun x => x.dirty)) := by
        rw [sortByKey]
        exact (List.perm_insertionSort keyLE _).mem_iff.mpr hFdirty
      have hFflat : ({ blk with dirty := true } : Block) ∈ (groupRuns (sortByKey
          ((moveToEnd (updateBlock sg.blocks (b + off / 512) (fun x => { x with dirty := true }))
            (b + off / 512)).filter (fun x => x.dirty)))).flatten := by
        rw [groupRuns_flatten]
        exact hFsorted
      obtain ⟨g, hg, hFg⟩ := List.mem_flatten.mp hFflat
      have hne := groupRuns_mem_ne_nil _ g hg
      have hchain := groupRuns_chain _ g hg
      obtain ⟨c, rest, hcr⟩ : ∃ c rest, g = c :: rest := by
        cases g with
        | nil => exact absurd rfl hne
        | cons c rest => exact ⟨c, rest, rfl⟩
      have hcov := evOf_covers hcr hchain hFg
      have hFbn : ({ blk with dirty := true } : Block).block_num = b + off / 512 := hkey
      rw [hFbn] at hcov
      exact ⟨evOf g, List.mem_map_of_mem evOf hg, hcov⟩
  · intro s b off buf0 h0
    have h2 : ¬((off % 512 + 0 + 511) / 512 = 1) := by omega
    have h3 : ¬(off % 512 > 0) := by omega
    unfold SDCard.writeblocks
    rw [if_neg h2, if_neg h3]
    rfl

/-- **C10** witness: the theorem applied on the fresh state `sRA2` with
`writeblocks(3, empty, 100)` (misaligned) and `writeblocks(3, empty, 1024)`
(aligned). -/
theorem c10_empty_write_misaligned_rmw_witness :
    0 < sRA2.cache_max_size ∧ 100 % 512 ≠ 0 ∧
    (∃ s' blk, SDCard.writeblocks sRA2 3 0 (fun _ => 0) 100 = (none, s') ∧
      lookup s'.blocks (3 + 100 / 512) = some blk ∧ blk.dirty = true ∧
      (∀ i, i < 512 → s'.pool blk.slot i = view sRA2 (3 + 100 / 512) i) ∧
      (Cache.sync s').1 = none ∧
      (∃ ev ∈ (Cache.sync s').2.events.drop s'.events.length,
        ev = Ev.writeSingle (3 + 100 / 512) ∨
        ∃ st n, ev = Ev.writeMulti st n ∧ st ≤ 3 + 100 / 512 ∧ 3 + 100 / 512 < st + n)) ∧
    SDCard.writeblocks sRA2 3 0 (fun _ => 0) 1024 = (none, sRA2) :=
  ⟨by decide, by decide,
   c10_empty_write_misaligned_rmw.1 sRA2 3 100 (fun _ => 0) (by decide) (by decide)
     (by decide) (by decide) (fun _ => rfl) (fun _ => rfl) (by decide) (by decide),
   c10_empty_write_misaligned_rmw.2 sRA2 3 1024 (fun _ => 0) (by decide)⟩

end SDC
